import Mathlib

/-!
Verification development for the GFS2 resource-group allocator (rgrp.c) and
extended-attribute store (eattr.c).

The definitions below are a shallow embedding of the C sources.  Pure C
functions become Lean functions; state mutated through pointers becomes
explicit state passing (input record in, updated record out); C `int` error
returns become `Int` values carrying the same `-E...` codes; paths that end in
a kernel panic (a failed `gfs2_assert`) return `none`; paths that call the
withdrawal machinery (`gfs2_assert_withdraw`, `gfs2_consist_*`) set a
`withdrew` flag in the returned record.

The bitmap codec (`gfs2_bitfit`, `gfs2_setbit`: file bits.c) and the on-disk
extended-attribute macros (eattr.h) are not part of the given sources; they
are modelled from the specification, at the granularity the specification
uses (2-bit cells for the bitmap, whole records for attribute blocks).  Each
such definition carries a doc comment starting `Modelled from the spec:`.
-/

/-! ## Errno codes used by the embedded functions (values as in Linux) -/

def ePerm : Int := 1
def eIOerr : Int := 5
def eExist : Int := 17
def eInval : Int := 22
def eNoSpc : Int := 28
def eRange : Int := 34
def eNoData : Int := 61

/-! ## Block allocation states (2-bit bitmap cell values, gfs2_ondisk)

0 = free, 1 = used (data), 2 = reserved/unused metadata, 3 = used
metadata / dinode.  `GFS2_NBBY` (blocks per bitmap byte) is 4; the embedding
keeps the byte-based `bi_start`/`bi_len` fields of rgrp.c and converts to
cell counts by multiplying by 4 exactly where the C code does. -/

def GFS2_BLKST_FREE : Nat := 0
def GFS2_BLKST_USED : Nat := 1
def GFS2_BLKST_USEDMETA : Nat := 3

/-! ## Bitmap codec -/

/-- Helper for the bitmap codec: index of the first cell equal to `state`
in a cell list, scanning left to right. -/
def findState : List Nat → Nat → Option Nat
  | [], _ => none
  | c :: cs, state => if c = state then some 0 else (findState cs state).map (· + 1)

/-- Modelled from the spec: `find_free(segment, goal, state)` of the bitmap
codec (the C `gfs2_bitfit` of bits.c, which is not among the given sources).
Linear scan from `goal` forward, wrapping to the segment start; returns the
lowest cell offset `≥ goal` whose 2-bit state equals `state`, else the lowest
such offset overall, else not-found (`none`, the C `BFITNOENT`). -/
def gfs2_bitfit (cells : List Nat) (goal state : Nat) : Option Nat :=
  match findState (cells.drop goal) state with
  | some i => some (goal + i)
  | none => findState (cells.take goal) state

/-- Modelled from the spec: `set_state(segment, offset, state)` of the bitmap
codec (the C `gfs2_setbit` of bits.c).  Writes the 2-bit cell; out-of-range
offsets leave the segment unchanged (the caller is responsible for bounds). -/
def gfs2_setbit (cells : List Nat) (blk state : Nat) : List Nat :=
  cells.set blk state

theorem findState_eq_none_iff (l : List Nat) (s : Nat) :
    findState l s = none ↔ ∀ c ∈ l, c ≠ s := by
  induction l with
  | nil => simp [findState]
  | cons c cs ih =>
    by_cases h : c = s
    · simp [findState, h]
    · simp only [findState, if_neg h, Option.map_eq_none]
      simp [ih, h]

theorem findState_some_get (l : List Nat) (s : Nat) (i : Nat)
    (h : findState l s = some i) : l.get? i = some s := by
  induction l generalizing i with
  | nil => simp [findState] at h
  | cons c cs ih =>
    by_cases hc : c = s
    · simp [findState, hc] at h
      subst h
      simp [hc]
    · simp only [findState, if_neg hc] at h
      match hm : findState cs s with
      | none => rw [hm] at h; simp at h
      | some j =>
        rw [hm] at h
        simp at h
        subst h
        simpa using ih j hm

theorem gfs2_bitfit_none_iff (cells : List Nat) (goal state : Nat) :
    gfs2_bitfit cells goal state = none ↔ ∀ c ∈ cells, c ≠ state := by
  unfold gfs2_bitfit
  constructor
  · intro h c hc
    match hm : findState (cells.drop goal) state with
    | some i => rw [hm] at h; simp at h
    | none =>
      rw [hm] at h
      have h1 := (findState_eq_none_iff _ _).mp hm
      have h2 := (findState_eq_none_iff _ _).mp h
      rcases List.mem_append.mp ((List.take_append_drop goal cells) ▸ hc) with h3 | h3
      · exact h2 c h3
      · exact h1 c h3
  · intro h
    have h1 : findState (cells.drop goal) state = none :=
      (findState_eq_none_iff _ _).mpr (fun c hc => h c (List.mem_of_mem_drop hc))
    have h2 : findState (cells.take goal) state = none :=
      (findState_eq_none_iff _ _).mpr (fun c hc => h c (List.mem_of_mem_take hc))
    rw [h1, h2]

theorem gfs2_bitfit_some_get (cells : List Nat) (goal state i : Nat)
    (h : gfs2_bitfit cells goal state = some i) : cells.get? i = some state := by
  unfold gfs2_bitfit at h
  match hm : findState (cells.drop goal) state with
  | some j =>
    rw [hm] at h
    simp at h
    have hg := findState_some_get _ _ _ hm
    rw [List.get?_drop] at hg
    rw [h] at hg
    exact hg
  | none =>
    rw [hm] at h
    have hg := findState_some_get _ _ _ h
    have hlt : i < (cells.take goal).length := by
      have := List.get?_eq_some.mp hg
      exact this.1
    have : i < goal := lt_of_lt_of_le hlt (by simpa using List.length_take_le goal cells)
    rwa [List.get?_take this] at hg

theorem gfs2_bitfit_some_lt (cells : List Nat) (goal state i : Nat)
    (h : gfs2_bitfit cells goal state = some i) : i < cells.length :=
  (List.get?_eq_some.mp (gfs2_bitfit_some_get cells goal state i h)).1

/-! ## Resource group data model (rgrp.c / incore.h fields used by rgrp.c)

A `RgBits` is one bitmap segment (`struct gfs2_bitmap`): `bi_start`/`bi_len`
are byte offsets/lengths within the group's bitmap as in the C structure;
the buffer contents are modelled at 2-bit-cell granularity, so `bi_bh` is the
list of the segment's `bi_len * 4` cells (the C `bi_bh->b_data + bi_offset`
region) and `bi_clone` the optional clone shadow's cells. -/

structure RgBits where
  bi_start : Nat
  bi_len : Nat
  bi_bh : List Nat
  bi_clone : Option (List Nat)
deriving DecidableEq

instance : Inhabited RgBits := ⟨⟨0, 0, [], none⟩⟩

/-- The fields of `struct gfs2_rindex` read by the embedded code. -/
structure Rindex where
  ri_data0 : Nat
  ri_data : Nat
deriving DecidableEq

/-- The fields of `struct gfs2_rgrp` (on-disk header) read by the embedded
code. -/
structure RgHeader where
  rg_free : Nat
  rg_dinodes : Nat
deriving DecidableEq

/-- `struct gfs2_rgrpd`, restricted to the fields the embedded functions
touch.  `ri_length` of the C code is `rd_bits.length` here. -/
structure Rgd where
  rd_ri : Rindex
  rd_rg : RgHeader
  rd_bits : List RgBits
  rd_free_clone : Nat
  rd_last_alloc_data : Nat
  rd_last_alloc_meta : Nat
deriving DecidableEq

/-- `rgrp_contains_block` (rgrp.c): membership of a filesystem block number
in the group's half-open data range. -/
def rgrp_contains_block (ri : Rindex) (block : Nat) : Bool :=
  decide (ri.ri_data0 ≤ block ∧ block < ri.ri_data0 + ri.ri_data)

/-- The `for (buf = 0; buf < length; buf++) ... if (goal < (bi_start+bi_len)*NBBY) break`
segment-lookup loop shared by `rgblk_search`, `rgblk_free` and
`gfs2_get_block_type`: index of the first segment whose cell range covers
`goal`. -/
def firstSegIdx (goal : Nat) : List RgBits → Option Nat
  | [] => none
  | bi :: rest =>
    if goal < (bi.bi_start + bi.bi_len) * 4 then some 0
    else (firstSegIdx goal rest).map (· + 1)

/-- The effective buffer `rgblk_search` scans for a segment: the clone
shadow when present, else the live buffer. -/
def effCells (bi : RgBits) : List Nat :=
  bi.bi_clone.getD bi.bi_bh

/-- The `for (x = 0; x <= length; x++)` scan loop of `rgblk_search`: try
`gfs2_bitfit` on the segment `buf` (clone if present, else live buffer) from
local goal `goal`, else advance to the next segment (wrapping) with goal 0.
`k` is the number of segment scans still allowed (`length + 1` at entry).
`.ok (buf, blk)` is a hit; `.error buf` is loop exhaustion, returning the
segment the loop's final `buf` index points at. -/
def scanGo (bits : List RgBits) (old : Nat) : Nat → Nat → Nat → Except Nat (Nat × Nat)
  | buf, _, 0 => .error buf
  | buf, goal, k + 1 =>
    match gfs2_bitfit (effCells (bits.getD buf default)) goal old with
    | some blk => .ok (buf, blk)
    | none => scanGo bits old ((buf + 1) % bits.length) 0 k

structure RgSearchOut where
  blk : Nat
  rgd : Rgd
  withdrew : Bool
deriving DecidableEq

/-- The common tail of `rgblk_search`: mark the new state in the live buffer
of segment `buf` at local offset `blk` and, when a clone shadow exists, in
the clone as well (`gfs2_trans_add_bh` is a journal-collaborator call with no
effect on the modelled state); the returned block number is group-relative. -/
def rgblkMark (rgd : Rgd) (buf blk newState : Nat) (withdrew : Bool) : RgSearchOut :=
  let bi := rgd.rd_bits.getD buf default
  let bi' := { bi with
    bi_bh := gfs2_setbit bi.bi_bh blk newState,
    bi_clone := bi.bi_clone.map (fun cl => gfs2_setbit cl blk newState) }
  { blk := bi.bi_start * 4 + blk,
    rgd := { rgd with rd_bits := rgd.rd_bits.set buf bi' },
    withdrew := withdrew }

/-- `rgblk_search` (rgrp.c:940): find a cell in `old` state starting at the
group-relative `goal`, wrapping across segments up to once, and set it to
`newState`.  `none` models the kernel panic of the initial
`gfs2_assert(buf < length)` (goal beyond the group's cells); exhaustion of
the wrap loop models the `gfs2_assert_withdraw(x <= length)` branch, after
which the C code proceeds with `blk = 0` on the final `buf` — the model does
the same and reports `withdrew := true`. -/
def rgblk_search (rgd : Rgd) (goal old newState : Nat) : Option RgSearchOut :=
  let bits := rgd.rd_bits
  match firstSegIdx goal bits with
  | none => none
  | some buf0 =>
    let bi0 := bits.getD buf0 default
    let goal0 := goal - bi0.bi_start * 4
    match scanGo bits old buf0 goal0 (bits.length + 1) with
    | .ok (buf, blk) => some (rgblkMark rgd buf blk newState false)
    | .error buf => some (rgblkMark rgd buf 0 newState true)

/-- Group-relative cell read through the effective (clone-preferring)
buffers, using the same segment lookup as the C code. -/
def relCellEff (rgd : Rgd) (r : Nat) : Option Nat :=
  match firstSegIdx r rgd.rd_bits with
  | none => none
  | some i =>
    let bi := rgd.rd_bits.getD i default
    (effCells bi).get? (r - bi.bi_start * 4)

/-- Group-relative cell read from the live buffers. -/
def relCellLive (rgd : Rgd) (r : Nat) : Option Nat :=
  match firstSegIdx r rgd.rd_bits with
  | none => none
  | some i =>
    let bi := rgd.rd_bits.getD i default
    bi.bi_bh.get? (r - bi.bi_start * 4)

/-- Group-relative cell read from the clone shadow, `none` when the segment
has no clone. -/
def relCellClone (rgd : Rgd) (r : Nat) : Option Nat :=
  match firstSegIdx r rgd.rd_bits with
  | none => none
  | some i =>
    let bi := rgd.rd_bits.getD i default
    match bi.bi_clone with
    | none => none
    | some cl => cl.get? (r - bi.bi_start * 4)

/-- Structural well-formedness of a group descriptor, as established by
`compute_bitstructs` (rgrp.c:201) and `gfs2_rgrp_bh_get`: the segments tile
the bitmap bytes contiguously from 0. -/
def segsContig : Nat → List RgBits → Bool
  | _, [] => true
  | c, bi :: rest => (bi.bi_start == c) && segsContig (c + bi.bi_len) rest

def sumLens (bits : List RgBits) : Nat :=
  bits.foldr (fun bi a => bi.bi_len + a) 0

/-- Well-formed group descriptor: non-empty contiguous segments whose total
cell count is `ri_data` (the `(bi_start + bi_len) * GFS2_NBBY != ri_data`
consistency check of `compute_bitstructs`), with every buffer and clone
holding exactly its segment's `bi_len * 4` cells. -/
def rgdWFb (rgd : Rgd) : Bool :=
  (!rgd.rd_bits.isEmpty) &&
  segsContig 0 rgd.rd_bits &&
  (sumLens rgd.rd_bits * 4 == rgd.rd_ri.ri_data) &&
  rgd.rd_bits.all (fun bi =>
    bi.bi_bh.length == bi.bi_len * 4 &&
    (match bi.bi_clone with
     | none => true
     | some cl => cl.length == bi.bi_len * 4))

/-! ## gfs2_rgrp_repolish_clones, reservations, gfs2_alloc_data -/

/-- One iteration of the `gfs2_rgrp_repolish_clones` loop: segments without
a clone are skipped (`continue`); a present clone receives a copy of the
live buffer's bitmap bytes. -/
def repolishSeg (bi : RgBits) : RgBits :=
  match bi.bi_clone with
  | none => bi
  | some _ => { bi with bi_clone := some bi.bi_bh }

/-- `gfs2_rgrp_repolish_clones` (rgrp.c:495): copy the live bitmap cells into
every existing clone shadow and reset the free-count snapshot to the
committed header free count. -/
def gfs2_rgrp_repolish_clones (rgd : Rgd) : Rgd :=
  { rgd with
    rd_bits := rgd.rd_bits.map repolishSeg,
    rd_free_clone := rgd.rd_rg.rg_free }

/-- `struct gfs2_alloc`, restricted to the accounting fields (the holders
`al_ri_gh`/`al_rgd_gh` and the debug provenance `al_file`/`al_line` are not
modelled; `al_rgd` keeps only the chosen group's index). -/
structure Alloc where
  al_requested : Nat
  al_alloced : Nat
  al_rgd : Option Nat
deriving DecidableEq

structure InplaceReleaseOut where
  al : Alloc
  warned : Bool
  withdrew : Bool
deriving DecidableEq

/-- `gfs2_inplace_release` (rgrp.c:869): check `al_alloced <= al_requested`
with `gfs2_assert_warn` — a rate-limited console warning (util.c:91), which
is not the withdrawal path — then clear `al_rgd` and drop the two glock
holders (lock effects not modelled).  `warned` records whether the assertion
failed (rate limiting of the printk is not modelled); `withdrew` is `false`
because the function contains no call into the withdrawal machinery. -/
def gfs2_inplace_release (al : Alloc) : InplaceReleaseOut :=
  { al := { al with al_rgd := none },
    warned := decide (¬ al.al_alloced ≤ al.al_requested),
    withdrew := false }

/-- Wrapping decrement of a `uint32_t` counter (`rg_free--`,
`rd_free_clone--`). -/
def u32wrapDec (x : Nat) : Nat :=
  if x = 0 then 4294967295 else x - 1

/-- The per-inode state read and written by `gfs2_alloc_data`. -/
structure InodeAllocSt where
  rgd : Rgd
  di_goal_data : Nat
  al : Alloc
deriving DecidableEq

structure AllocDataOut where
  block : Nat
  st : InodeAllocSt
  withdrew : Bool
deriving DecidableEq

/-- `gfs2_alloc_data` (rgrp.c:1063): goal selection from `di_goal_data` (when
inside the group) or `rd_last_alloc_data`; `rgblk_search` for a free→used
cell; update of the goal fields; `gfs2_assert_withdraw(rg_free)` then
wrapping decrement of the header free count; `al_alloced++`; decrement of the
free-count snapshot.  Journal, statfs and quota collaborator calls are not
modelled.  `none` propagates the panic case of `rgblk_search`. -/
def gfs2_alloc_data (s : InodeAllocSt) : Option AllocDataOut :=
  let rgd := s.rgd
  let goal := if rgrp_contains_block rgd.rd_ri s.di_goal_data
              then s.di_goal_data - rgd.rd_ri.ri_data0
              else rgd.rd_last_alloc_data
  match rgblk_search rgd goal GFS2_BLKST_FREE GFS2_BLKST_USED with
  | none => none
  | some so =>
    let rgd1 : Rgd := { so.rgd with rd_last_alloc_data := so.blk }
    let block := rgd1.rd_ri.ri_data0 + so.blk
    let wFree := decide (rgd1.rd_rg.rg_free = 0)
    let rgd2 : Rgd := { rgd1 with
      rd_rg := { rgd1.rd_rg with rg_free := u32wrapDec rgd1.rd_rg.rg_free },
      rd_free_clone := u32wrapDec rgd1.rd_free_clone }
    some { block := block,
           st := { rgd := rgd2,
                   di_goal_data := block,
                   al := { s.al with al_alloced := s.al.al_alloced + 1 } },
           withdrew := so.withdrew || wFree }

/-! ## Recent-list and forward-cursor bookkeeping (get_local_rgrp success
path, rgrp.c:816-827)

Resource groups are identified by their index `0 .. n-1` in the on-disk
order of the resource index (`sd_rindex_list`); `gfs2_rgrpd_get_next`
returns `none` past the last group and the caller restarts at index 0. -/

def gfs2_rgrpd_get_next (n g : Nat) : Option Nat :=
  if g + 1 < n then some (g + 1) else none

/-- The `list_for_each_entry` walk of `recent_rgrp_add` (rgrp.c:668): bail
out without adding when the new group is already present or when the counter
reaches `max = sd_rgrps / journals`; append at the tail only when the walk
completes. -/
def recentAddGo (newRgd : Nat) (orig : List Nat) (maxE : Nat) : List Nat → Nat → List Nat
  | [], _ => orig ++ [newRgd]
  | r :: rest, count =>
    if r = newRgd then orig
    else if count + 1 ≥ maxE then orig
    else recentAddGo newRgd orig maxE rest (count + 1)

/-- `recent_rgrp_add` (rgrp.c:668) on the recent list, head first; `maxE` is
`sd_rgrps / gfs2_jindex_size(sdp)`. -/
def recent_rgrp_add (newRgd : Nat) (recent : List Nat) (maxE : Nat) : List Nat :=
  recentAddGo newRgd recent maxE recent 0

/-- The success path of `get_local_rgrp` (rgrp.c:816-827) reached from the
full-list scan (`begin` non-null): add the chosen group to the recent list
and advance the forward cursor to the group after it, wrapping to the first
group at the end of the list.  Returns (new recent list, new forward
cursor). -/
def getLocalRgrpSuccess (n chosen : Nat) (recent : List Nat) (maxE : Nat) :
    List Nat × Nat :=
  let recent' := recent_rgrp_add chosen recent maxE
  let fwd := match gfs2_rgrpd_get_next n chosen with
             | some g => g
             | none => 0
  (recent', fwd)

theorem recentAddGo_cases (newRgd : Nat) (orig : List Nat) (maxE : Nat) :
    ∀ (lst : List Nat) (count : Nat),
      recentAddGo newRgd orig maxE lst count = orig ∨
      recentAddGo newRgd orig maxE lst count = orig ++ [newRgd] := by
  intro lst
  induction lst with
  | nil => intro count; right; rfl
  | cons r rest ih =>
    intro count
    by_cases h1 : r = newRgd
    · left; simp [recentAddGo, h1]
    · by_cases h2 : count + 1 ≥ maxE
      · left; simp [recentAddGo, h1, h2]
      · simpa [recentAddGo, h1, h2] using ih (count + 1)

theorem recentAddGo_append_iff (newRgd : Nat) (orig : List Nat) (maxE : Nat) :
    ∀ (lst : List Nat) (count : Nat),
      recentAddGo newRgd orig maxE lst count = orig ++ [newRgd] ↔
        (lst = [] ∨ (newRgd ∉ lst ∧ count + lst.length < maxE)) := by
  have hne : ∀ x : Nat, orig ≠ orig ++ [x] := by
    intro x h
    have := congrArg List.length h
    simp at this
  intro lst
  induction lst with
  | nil => intro count; simp [recentAddGo]
  | cons r rest ih =>
    intro count
    simp only [recentAddGo]
    by_cases h1 : r = newRgd
    · rw [if_pos h1]
      subst h1
      constructor
      · intro h; exact absurd h (hne r)
      · rintro (h | ⟨hmem, _⟩)
        · exact absurd h (by simp)
        · exact absurd (List.mem_cons_self r rest) hmem
    · rw [if_neg h1]
      by_cases h2 : count + 1 ≥ maxE
      · rw [if_pos h2]
        constructor
        · intro h; exact absurd h (hne newRgd)
        · rintro (h | ⟨hmem, hlen⟩)
          · exact absurd h (by simp)
          · simp only [List.length_cons] at hlen; omega
      · rw [if_neg h2]
        rw [ih (count + 1)]
        simp only [List.mem_cons, List.length_cons]
        constructor
        · rintro (h | ⟨hmem, hlen⟩)
          · subst h
            right
            refine ⟨?_, ?_⟩
            · rintro (h | h)
              · exact h1 h.symm
              · simp at h
            · simp
              omega
          · right
            refine ⟨?_, ?_⟩
            · rintro (h | h)
              · exact h1 h.symm
              · exact hmem h
            · omega
        · rintro (h | ⟨hmem, hlen⟩)
          · exact absurd h (by simp)
          · by_cases hr : rest = []
            · left; exact hr
            · right
              exact ⟨fun hx => hmem (Or.inr hx), by omega⟩

/-! ## Claim C2 — concrete scenario A -/

/-- Scenario A of the specification: a group with data-block range
[100,164) — i.e. `ri_data0 = 100`, `ri_data = 64` — one bitmap segment of 16
bytes (64 cells) all in the free state, header free count 64, and an
allocation of one data block with goal block 100. -/
def scenarioA : InodeAllocSt :=
  { rgd := { rd_ri := { ri_data0 := 100, ri_data := 64 },
             rd_rg := { rg_free := 64, rg_dinodes := 0 },
             rd_bits := [{ bi_start := 0, bi_len := 16,
                           bi_bh := List.replicate 64 0, bi_clone := none }],
             rd_free_clone := 64,
             rd_last_alloc_data := 0,
             rd_last_alloc_meta := 0 },
    di_goal_data := 100,
    al := { al_requested := 1, al_alloced := 0, al_rgd := some 0 } }

/-- C2, counterexample: in scenario A the header free count after allocating
one data block is 63, not the 163 the claim states (the group holds only 64
blocks). -/
theorem c2_counterexample :
    ((gfs2_alloc_data scenarioA).map fun o => o.st.rgd.rd_rg.rg_free) = some 63 ∧
    (63 : Nat) ≠ 163 := by
  exact ⟨rfl, by decide⟩

/-- C2, amended: for the group with data-block range [100,164), all cells
free, allocating one data block with goal block 100 returns block 100, leaves
the header free count equal to 63, sets the cell at group-relative offset 0
to the used-data state, and takes no withdrawal branch. -/
theorem c2_alloc_data_scenarioA :
    ((gfs2_alloc_data scenarioA).map fun o => o.block) = some 100 ∧
    ((gfs2_alloc_data scenarioA).map fun o => o.st.rgd.rd_rg.rg_free) = some 63 ∧
    ((gfs2_alloc_data scenarioA).map fun o => relCellLive o.st.rgd 0) =
      some (some GFS2_BLKST_USED) ∧
    ((gfs2_alloc_data scenarioA).map fun o => o.withdrew) = some false := by
  exact ⟨rfl, rfl, rfl, rfl⟩

/-! ## Claim C8 — repolish clones -/

theorem repolishSeg_idem (bi : RgBits) : repolishSeg (repolishSeg bi) = repolishSeg bi := by
  cases h : bi.bi_clone <;> simp [repolishSeg, h]

/-- C8, confirmed: after `gfs2_rgrp_repolish_clones` every existing clone
shadow equals the live buffer, the free-count snapshot `rd_free_clone` (the
value returned by a free-count query such as `try_rgrp_fit`'s comparison)
equals the committed header count `rg_free`, and the function is
idempotent. -/
theorem c8_repolish_clones (rgd : Rgd) :
    ((gfs2_rgrp_repolish_clones rgd).rd_bits.all fun bi =>
        bi.bi_clone.all (· == bi.bi_bh)) = true ∧
    (gfs2_rgrp_repolish_clones rgd).rd_free_clone = rgd.rd_rg.rg_free ∧
    gfs2_rgrp_repolish_clones (gfs2_rgrp_repolish_clones rgd) =
      gfs2_rgrp_repolish_clones rgd := by
  refine ⟨?_, rfl, ?_⟩
  · simp only [gfs2_rgrp_repolish_clones, List.all_eq_true]
    intro bi hbi
    obtain ⟨b0, _, rfl⟩ := List.mem_map.mp hbi
    cases h : b0.bi_clone <;> simp [repolishSeg, h, Option.all]
  · simp only [gfs2_rgrp_repolish_clones, List.map_map]
    congr 1
    exact List.map_congr_left fun bi _ => repolishSeg_idem bi

/-! ## Claim C6 — reservation accounting -/

/-- C6, counterexample: a reservation released with `al_alloced = 2 >
al_requested = 1` triggers only the `gfs2_assert_warn` console warning; the
release does not enter the withdrawal (fatal consistency error) path and
completes normally. -/
theorem c6_counterexample :
    (gfs2_inplace_release ⟨1, 2, some 0⟩).withdrew = false ∧
    (1 : Nat) < 2 ∧
    (gfs2_inplace_release ⟨1, 2, some 0⟩).warned = true := by
  decide

/-- C6, amended: `al_alloced` is incremented by exactly one per single-block
data allocation; at release the inequality consumed ≤ requested is checked
and a violation produces a (rate-limited) diagnostic warning — not a fatal
consistency error — after which the release still completes, clearing
`al_rgd`. -/
theorem c6_release_warns_not_fatal (al : Alloc) (s : InodeAllocSt) :
    ((gfs2_inplace_release al).warned = true ↔ al.al_requested < al.al_alloced) ∧
    (gfs2_inplace_release al).withdrew = false ∧
    (gfs2_inplace_release al).al.al_rgd = none ∧
    ((gfs2_alloc_data s).map fun o => o.st.al.al_alloced) =
      ((gfs2_alloc_data s).map fun _ => s.al.al_alloced + 1) := by
  refine ⟨?_, rfl, rfl, ?_⟩
  · simp [gfs2_inplace_release, Nat.lt_iff_add_one_le]
  · cases hm : rgblk_search s.rgd
      (if rgrp_contains_block s.rgd.rd_ri s.di_goal_data
       then s.di_goal_data - s.rgd.rd_ri.ri_data0
       else s.rgd.rd_last_alloc_data) GFS2_BLKST_FREE GFS2_BLKST_USED with
    | none => simp [gfs2_alloc_data, hm]
    | some so => simp [gfs2_alloc_data, hm]

/-! ## Claim C9 — recent list and forward cursor on success -/

/-- C9, counterexample: with `sd_rgrps = 4` and 2 journals the recent-list
bound is 2; adding chosen group 2 to the full list [0, 1] leaves the list
unchanged — the chosen group is not recorded at the tail and no oldest entry
is evicted, contrary to the claim. -/
theorem c9_counterexample :
    recent_rgrp_add 2 [0, 1] 2 = [0, 1] ∧ (2 : Nat) ∉ ([0, 1] : List Nat) := by
  decide

/-- C9, amended: on the success path of the forward scan the chosen group is
appended at the tail of the recent list only when the list walk completes —
that is, when the list is empty, or the group is absent and the list is
shorter than the bound (total groups / journals); otherwise the list is left
unchanged and nothing is evicted.  The list length never exceeds
max(bound, 1), and the forward cursor advances to the group after the chosen
one, wrapping to the first group at the end of the list. -/
theorem c9_success_path (n chosen : Nat) (recent : List Nat) (maxE : Nat)
    (h : chosen < n) :
    (recent_rgrp_add chosen recent maxE = recent ∨
      recent_rgrp_add chosen recent maxE = recent ++ [chosen]) ∧
    (recent_rgrp_add chosen recent maxE = recent ++ [chosen] ↔
      (recent = [] ∨ (chosen ∉ recent ∧ recent.length < maxE))) ∧
    (recent_rgrp_add chosen recent maxE).length ≤ max recent.length (max maxE 1) ∧
    (getLocalRgrpSuccess n chosen recent maxE).2 = (chosen + 1) % n := by
  have hcases := recentAddGo_cases chosen recent maxE recent 0
  have hiff := recentAddGo_append_iff chosen recent maxE recent 0
  refine ⟨hcases, by simpa [recent_rgrp_add] using hiff, ?_, ?_⟩
  · rcases hcases with hc | hc
    · show (recentAddGo chosen recent maxE recent 0).length ≤ _
      rw [hc]
      exact le_max_left _ _
    · show (recentAddGo chosen recent maxE recent 0).length ≤ _
      have hmm := (recentAddGo_append_iff chosen recent maxE recent 0).mp hc
      rw [hc]
      simp only [List.length_append, List.length_cons, List.length_nil]
      rcases hmm with h0 | ⟨_, hlt⟩
      · subst h0; simp
      · simp at hlt ⊢
        omega
  · simp only [getLocalRgrpSuccess, gfs2_rgrpd_get_next]
    by_cases hn : chosen + 1 < n
    · simp only [if_pos hn]
      exact (Nat.mod_eq_of_lt hn).symm
    · simp only [if_neg hn]
      have : chosen + 1 = n := by omega
      rw [this, Nat.mod_self]

/-- Witness for `c9_success_path` at a concrete instance. -/
theorem c9_success_path_witness :
    (recent_rgrp_add 1 [0] 1 = [0] ∨ recent_rgrp_add 1 [0] 1 = [0] ++ [1]) ∧
    (recent_rgrp_add 1 [0] 1 = [0] ++ [1] ↔
      (([0] : List Nat) = [] ∨ ((1 : Nat) ∉ ([0] : List Nat) ∧ ([0] : List Nat).length < 1))) ∧
    (recent_rgrp_add 1 [0] 1).length ≤ max ([0] : List Nat).length (max 1 1) ∧
    (getLocalRgrpSuccess 2 1 [0] 1).2 = (1 + 1) % 2 :=
  c9_success_path 2 1 [0] 1 (by decide)

/-! ## Claim C1 — the full-list scan of get_local_rgrp (rgrp.c:784-814)

Groups are indices `0 .. n-1`; `first` is the forward cursor the scan starts
from (`begin` in the C code).  The cluster-lock environment is modelled by
two per-group functions: `cont g` says a non-blocking (`LM_FLAG_TRY`)
request on `g` fails with `GLR_TRYFAILED` (a blocking request always
succeeds — `GLR_TRYFAILED` can only arise with the try flag), and `fit g` is
the outcome of `try_rgrp_fit` (whether `rd_free_clone ≥ al_requested`).
Hard lock-layer errors (the `default:` arm, which aborts the scan with that
error) are outside the modelled environment. -/

inductive ScanRes where
  | ok (g : Nat)
  | nospc
deriving DecidableEq

/-- The `for (;;)` loop of `get_local_rgrp`: state is the current group
`rgd`, the lock mode (`tryMode` true means `flags = LM_FLAG_TRY`), the
`skipped` and `loops` counters, and a fuel bound on remaining iterations
(`none` = fuel exhausted with the loop still running).  On a granted lock
with a fit the scan succeeds; on `GLR_TRYFAILED` the group is skipped; the
loop then advances (wrapping) and, back at `begin`, fails with `ENOSPC`
unless this was the first circuit and something was skipped, in which case
one more circuit runs with blocking locking (`flags = 0`). -/
def getLocalScan (n : Nat) (fit cont : Nat → Bool) (first : Nat) :
    Nat → Bool → Nat → Nat → Nat → Option ScanRes
  | _, _, _, _, 0 => none
  | rgd, tryMode, skipped, loops, fuel + 1 =>
    let locked := !(tryMode && cont rgd)
    if locked && fit rgd then some (.ok rgd)
    else
      let skipped' := if locked then skipped else skipped + 1
      let rgd' := (rgd + 1) % n
      if rgd' = first then
        if loops + 1 ≥ 2 ∨ skipped' = 0 then some .nospc
        else getLocalScan n fit cont first rgd' false skipped' (loops + 1) fuel
      else getLocalScan n fit cont first rgd' tryMode skipped' loops fuel

/-- First hit in one circuit segment of `d` groups starting at `rgd`
(wrapping), for a per-group success predicate `ok`. -/
def circuitFind (n : Nat) (ok : Nat → Bool) : Nat → Nat → Option Nat
  | _, 0 => none
  | rgd, d + 1 => if ok rgd then some rgd else circuitFind n ok ((rgd + 1) % n) d

/-- Number of contended (try-lock-failing) groups in a circuit segment. -/
def circuitSkips (n : Nat) (cont : Nat → Bool) : Nat → Nat → Nat
  | _, 0 => 0
  | rgd, d + 1 => (if cont rgd then 1 else 0) + circuitSkips n cont ((rgd + 1) % n) d

/-- Number of scan steps from `rgd` until the wrap check `rgd' == begin`
fires: `first - rgd` going forward, a full `n` when already at `first`. -/
def distTo (n first rgd : Nat) : Nat :=
  if rgd < first then first - rgd else n + first - rgd

theorem distTo_pos (n first rgd : Nat) (hr : rgd < n) : 1 ≤ distTo n first rgd := by
  simp only [distTo]
  split <;> omega

theorem distTo_self (n first : Nat) (hf : first < n) : distTo n first first = n := by
  simp only [distTo]
  split <;> omega

theorem distTo_one (n first rgd : Nat) (hr : rgd < n) (hf : first < n)
    (hd : distTo n first rgd = 1) : (rgd + 1) % n = first := by
  by_cases h : rgd + 1 = n
  · rw [h, Nat.mod_self]
    simp only [distTo] at hd
    split at hd <;> omega
  · rw [Nat.mod_eq_of_lt (by omega)]
    simp only [distTo] at hd
    split at hd <;> omega

theorem distTo_step (n first rgd d : Nat) (hr : rgd < n) (hf : first < n)
    (hd : distTo n first rgd = d + 1) (hd1 : 1 ≤ d) :
    (rgd + 1) % n < n ∧ distTo n first ((rgd + 1) % n) = d ∧ (rgd + 1) % n ≠ first := by
  by_cases h : rgd + 1 = n
  · have hmod : (rgd + 1) % n = 0 := by rw [h]; exact Nat.mod_self n
    rw [hmod]
    simp only [distTo] at hd ⊢
    by_cases c1 : rgd < first
    · exfalso; omega
    · rw [if_neg c1] at hd
      by_cases c2 : 0 < first
      · rw [if_pos c2]; omega
      · exfalso; omega
  · have hlt : rgd + 1 < n := by omega
    rw [Nat.mod_eq_of_lt hlt]
    simp only [distTo] at hd ⊢
    by_cases c1 : rgd < first
    · rw [if_pos c1] at hd
      by_cases c2 : rgd + 1 < first
      · rw [if_pos c2]; omega
      · rw [if_neg c2]; omega
    · rw [if_neg c1] at hd
      have c2 : ¬ (rgd + 1 < first) := by omega
      rw [if_neg c2]; omega

theorem circuitFind_eq_none_iff (n : Nat) (ok : Nat → Bool) (hn : 0 < n) :
    ∀ (d rgd : Nat), rgd < n →
      (circuitFind n ok rgd d = none ↔ ∀ t < d, ok ((rgd + t) % n) = false) := by
  intro d
  induction d with
  | zero => intro rgd _; simp [circuitFind]
  | succ d ih =>
    intro rgd hr
    by_cases h : ok rgd = true
    · simp only [circuitFind, if_pos h]
      constructor
      · intro hc; exact absurd hc (by simp)
      · intro hall
        have := hall 0 (by omega)
        rw [Nat.add_zero, Nat.mod_eq_of_lt hr] at this
        rw [h] at this
        exact absurd this (by simp)
    · simp only [circuitFind, if_neg h]
      rw [ih ((rgd + 1) % n) (Nat.mod_lt _ hn)]
      constructor
      · intro hall t ht
        match t with
        | 0 =>
          rw [Nat.add_zero, Nat.mod_eq_of_lt hr]
          exact Bool.not_eq_true _ ▸ (by simpa using h)
        | t + 1 =>
          have := hall t (by omega)
          rwa [Nat.mod_add_mod, show rgd + 1 + t = rgd + (t + 1) by omega] at this
      · intro hall t ht
        have := hall (t + 1) (by omega)
        rwa [show rgd + (t + 1) = rgd + 1 + t by omega, ← Nat.mod_add_mod] at this

theorem circuitFind_some (n : Nat) (ok : Nat → Bool) (hn : 0 < n) :
    ∀ (d rgd g : Nat), rgd < n → circuitFind n ok rgd d = some g →
      ok g = true ∧ g < n := by
  intro d
  induction d with
  | zero => intro rgd g _ hc; simp [circuitFind] at hc
  | succ d ih =>
    intro rgd g hr hc
    by_cases h : ok rgd = true
    · simp only [circuitFind, if_pos h] at hc
      cases hc
      exact ⟨h, hr⟩
    · simp only [circuitFind, if_neg h] at hc
      exact ih ((rgd + 1) % n) g (Nat.mod_lt _ hn) hc

theorem circuitSkips_eq_zero_iff (n : Nat) (cont : Nat → Bool) (hn : 0 < n) :
    ∀ (d rgd : Nat), rgd < n →
      (circuitSkips n cont rgd d = 0 ↔ ∀ t < d, cont ((rgd + t) % n) = false) := by
  intro d
  induction d with
  | zero => intro rgd _; simp [circuitSkips]
  | succ d ih =>
    intro rgd hr
    simp only [circuitSkips, Nat.add_eq_zero]
    rw [ih ((rgd + 1) % n) (Nat.mod_lt _ hn)]
    constructor
    · rintro ⟨h0, hall⟩ t ht
      match t with
      | 0 =>
        rw [Nat.add_zero, Nat.mod_eq_of_lt hr]
        by_cases hcg : cont rgd = true
        · rw [if_pos hcg] at h0; omega
        · simpa using hcg
      | t + 1 =>
        have := hall t (by omega)
        rwa [Nat.mod_add_mod, show rgd + 1 + t = rgd + (t + 1) by omega] at this
    · intro hall
      constructor
      · have := hall 0 (by omega)
        rw [Nat.add_zero, Nat.mod_eq_of_lt hr] at this
        simp [this]
      · intro t ht
        have := hall (t + 1) (by omega)
        rwa [show rgd + (t + 1) = rgd + 1 + t by omega, ← Nat.mod_add_mod] at this

theorem forall_circuit_iff_forall_lt (n first : Nat) (hf : first < n) (p : Nat → Prop) :
    (∀ t < n, p ((first + t) % n)) ↔ ∀ g < n, p g := by
  constructor
  · intro h g hg
    by_cases hge : first ≤ g
    · have := h (g - first) (by omega)
      rwa [show first + (g - first) = g by omega, Nat.mod_eq_of_lt hg] at this
    · have := h (g + n - first) (by omega)
      rw [show first + (g + n - first) = g + n by omega] at this
      rwa [Nat.add_mod_right, Nat.mod_eq_of_lt hg] at this
  · intro h t _
    exact h _ (Nat.mod_lt _ (by omega))

theorem getLocalScan_step_hit (n : Nat) (fit cont : Nat → Bool) (first rgd : Nat)
    (tryMode : Bool) (skipped loops fuel : Nat)
    (h : (!(tryMode && cont rgd) && fit rgd) = true) :
    getLocalScan n fit cont first rgd tryMode skipped loops (fuel + 1) =
      some (.ok rgd) := by
  simp only [getLocalScan, h, if_true]

theorem getLocalScan_step_skip (n : Nat) (fit cont : Nat → Bool) (first rgd : Nat)
    (skipped loops fuel : Nat) (hcont : cont rgd = true) :
    getLocalScan n fit cont first rgd true skipped loops (fuel + 1) =
      (if (rgd + 1) % n = first then
         if loops + 1 ≥ 2 ∨ skipped + 1 = 0 then some .nospc
         else getLocalScan n fit cont first ((rgd + 1) % n) false (skipped + 1)
                (loops + 1) fuel
       else getLocalScan n fit cont first ((rgd + 1) % n) true (skipped + 1)
              loops fuel) := by
  simp [getLocalScan, hcont]

theorem getLocalScan_step_nofit (n : Nat) (fit cont : Nat → Bool) (first rgd : Nat)
    (tryMode : Bool) (skipped loops fuel : Nat)
    (hlock : (!(tryMode && cont rgd)) = true) (hfit : fit rgd = false) :
    getLocalScan n fit cont first rgd tryMode skipped loops (fuel + 1) =
      (if (rgd + 1) % n = first then
         if loops + 1 ≥ 2 ∨ skipped = 0 then some .nospc
         else getLocalScan n fit cont first ((rgd + 1) % n) false skipped
                (loops + 1) fuel
       else getLocalScan n fit cont first ((rgd + 1) % n) tryMode skipped
              loops fuel) := by
  simp [getLocalScan, hlock, hfit]

theorem getLocalScan_try_circuit (n : Nat) (fit cont : Nat → Bool) (first : Nat)
    (_hn : 0 < n) (hf : first < n) :
    ∀ (d rgd skipped fuel : Nat), rgd < n → distTo n first rgd = d → d ≤ fuel →
      getLocalScan n fit cont first rgd true skipped 0 fuel =
        match circuitFind n (fun g => !cont g && fit g) rgd d with
        | some g => some (.ok g)
        | none =>
          if skipped + circuitSkips n cont rgd d = 0 then some .nospc
          else getLocalScan n fit cont first first false
                 (skipped + circuitSkips n cont rgd d) 1 (fuel - d) := by
  intro d
  induction d with
  | zero =>
    intro rgd skipped fuel hr hd _
    exact absurd hd (by have := distTo_pos n first rgd hr; omega)
  | succ d ih =>
    intro rgd skipped fuel hr hd hfuel
    obtain ⟨fuel', rfl⟩ : ∃ f', fuel = f' + 1 := ⟨fuel - 1, by omega⟩
    by_cases hok : (!cont rgd && fit rgd) = true
    · rw [getLocalScan_step_hit n fit cont first rgd true skipped 0 fuel'
        (by simpa using hok)]
      simp only [circuitFind, hok, if_true]
    · have hokf : (!cont rgd && fit rgd) = false := Bool.eq_false_iff.mpr hok
      rcases Nat.eq_zero_or_pos d with hd0 | hd1
      · subst hd0
        have hwrap : (rgd + 1) % n = first := distTo_one n first rgd hr hf hd
        have hrhs : circuitFind n (fun g => !cont g && fit g) rgd 1 = none := by
          simp [circuitFind, hokf]
        rw [hrhs]
        have hsk1 : circuitSkips n cont rgd 1 = if cont rgd then 1 else 0 := by
          simp [circuitSkips]
        cases hcont : cont rgd with
        | true =>
          rw [getLocalScan_step_skip n fit cont first rgd skipped 0 fuel' hcont, hwrap,
            if_pos rfl, if_neg (show ¬ (0 + 1 ≥ 2 ∨ skipped + 1 = 0) by omega)]
          rw [hsk1, if_pos hcont, if_neg (show ¬ (skipped + 1 = 0) by omega)]
          norm_num
        | false =>
          have hfit : fit rgd = false := by
            cases hft : fit rgd
            · rfl
            · exact absurd (by simp [hcont, hft]) hok
          rw [getLocalScan_step_nofit n fit cont first rgd true skipped 0 fuel'
            (by simp [hcont]) hfit, hwrap, if_pos rfl]
          rw [hsk1, if_neg (show ¬ cont rgd = true by simp [hcont])]
          by_cases hsk : skipped = 0
          · rw [if_pos (show 0 + 1 ≥ 2 ∨ skipped = 0 from Or.inr hsk),
              if_pos (show skipped + 0 = 0 by omega)]
          · rw [if_neg (show ¬ (0 + 1 ≥ 2 ∨ skipped = 0) by omega),
              if_neg (show ¬ (skipped + 0 = 0) by omega)]
            norm_num
      · obtain ⟨hrlt', hd', hne⟩ := distTo_step n first rgd d hr hf hd hd1
        have hcf : circuitFind n (fun g => !cont g && fit g) rgd (d + 1) =
            circuitFind n (fun g => !cont g && fit g) ((rgd + 1) % n) d := by
          simp [circuitFind, hokf]
        rw [hcf]
        cases hcont : cont rgd with
        | true =>
          have ihh := ih ((rgd + 1) % n) (skipped + 1) fuel' hrlt' hd' (by omega)
          rw [getLocalScan_step_skip n fit cont first rgd skipped 0 fuel' hcont,
            if_neg hne, ihh]
          have hsk : circuitSkips n cont rgd (d + 1) =
              1 + circuitSkips n cont ((rgd + 1) % n) d := by
            simp [circuitSkips, hcont]
          rw [hsk]
          have h1 : skipped + (1 + circuitSkips n cont ((rgd + 1) % n) d) =
              skipped + 1 + circuitSkips n cont ((rgd + 1) % n) d := by omega
          rw [h1]
          have h2 : fuel' + 1 - (d + 1) = fuel' - d := by omega
          rw [h2]
        | false =>
          have hfit : fit rgd = false := by
            cases hft : fit rgd
            · rfl
            · exact absurd (by simp [hcont, hft]) hok
          have ihh := ih ((rgd + 1) % n) skipped fuel' hrlt' hd' (by omega)
          rw [getLocalScan_step_nofit n fit cont first rgd true skipped 0 fuel'
            (by simp [hcont]) hfit, if_neg hne, ihh]
          have hsk : circuitSkips n cont rgd (d + 1) =
              circuitSkips n cont ((rgd + 1) % n) d := by
            simp [circuitSkips, hcont]
          rw [hsk]
          have h2 : fuel' + 1 - (d + 1) = fuel' - d := by omega
          rw [h2]

theorem getLocalScan_block_circuit (n : Nat) (fit cont : Nat → Bool) (first : Nat)
    (hf : first < n) :
    ∀ (d rgd skipped fuel : Nat), rgd < n → distTo n first rgd = d → d ≤ fuel →
      getLocalScan n fit cont first rgd false skipped 1 fuel =
        match circuitFind n fit rgd d with
        | some g => some (.ok g)
        | none => some .nospc := by
  intro d
  induction d with
  | zero =>
    intro rgd skipped fuel hr hd _
    exact absurd hd (by have := distTo_pos n first rgd hr; omega)
  | succ d ih =>
    intro rgd skipped fuel hr hd hfuel
    obtain ⟨fuel', rfl⟩ : ∃ f', fuel = f' + 1 := ⟨fuel - 1, by omega⟩
    by_cases hok : fit rgd = true
    · rw [getLocalScan_step_hit n fit cont first rgd false skipped 1 fuel'
        (by simp [hok])]
      simp only [circuitFind, hok, if_true]
    · have hfit : fit rgd = false := Bool.eq_false_iff.mpr hok
      have hcf : circuitFind n fit rgd (d + 1) = circuitFind n fit ((rgd + 1) % n) d := by
        simp [circuitFind, hfit]
      rw [hcf]
      rcases Nat.eq_zero_or_pos d with hd0 | hd1
      · subst hd0
        have hwrap : (rgd + 1) % n = first := distTo_one n first rgd hr hf hd
        rw [getLocalScan_step_nofit n fit cont first rgd false skipped 1 fuel'
          (by simp) hfit, hwrap, if_pos rfl,
          if_pos (show 1 + 1 ≥ 2 ∨ skipped = 0 from Or.inl (by omega))]
        simp [circuitFind]
      · obtain ⟨hrlt', hd', hne⟩ := distTo_step n first rgd d hr hf hd hd1
        rw [getLocalScan_step_nofit n fit cont first rgd false skipped 1 fuel'
          (by simp) hfit, if_neg hne]
        exact ih ((rgd + 1) % n) skipped fuel' hrlt' hd' (by omega)

/-- C1, confirmed: the full-list scan of `get_local_rgrp` (started at the
forward cursor `first`, in try mode, with zero skip and loop counters)
terminates within two full circuits (`2 * n` iterations of fuel suffice) and
returns `ENOSPC` exactly when no circuit found a group with sufficient free
space: the first (try-locking) circuit finds a group that is both
uncontended and fitting, and — only when the first circuit ends with at
least one skipped (contended) group — a second, blocking circuit finds any
fitting group.  With at least one skip and no success, the scan is still
running after one full circuit (`n` iterations of fuel are exhausted):
exactly one more circuit is made.  With no skips and no fitting group the
scan fails with `ENOSPC` at the end of the first circuit (within `n`
iterations), with no further retries.  The environment excludes hard
lock-layer errors (`default:` arm), which abort the scan with that error
instead. -/
theorem c1_full_scan_two_circuits (n first : Nat) (fit cont : Nat → Bool)
    (hn : 0 < n) (hf : first < n) :
    (getLocalScan n fit cont first first true 0 0 (2 * n) ≠ none) ∧
    (getLocalScan n fit cont first first true 0 0 (2 * n) = some .nospc ↔
      (∀ g < n, ¬(cont g = false ∧ fit g = true)) ∧
      ((∀ g < n, cont g = false) ∨ (∀ g < n, fit g = false))) ∧
    ((∀ g < n, ¬(cont g = false ∧ fit g = true)) → (∃ g < n, cont g = true) →
      getLocalScan n fit cont first first true 0 0 n = none) ∧
    ((∀ g < n, cont g = false) → (∀ g < n, fit g = false) →
      getLocalScan n fit cont first first true 0 0 n = some .nospc) := by
  have hdist : distTo n first first = n := distTo_self n first hf
  have hpt : ∀ g, ((!cont g && fit g) = false) ↔ ¬(cont g = false ∧ fit g = true) := by
    intro g; cases hc : cont g <;> cases hfg : fit g <;> simp
  have hfindTryIff : (circuitFind n (fun g => !cont g && fit g) first n = none) ↔
      (∀ g < n, ¬(cont g = false ∧ fit g = true)) := by
    rw [circuitFind_eq_none_iff n _ hn n first hf,
      ← forall_circuit_iff_forall_lt n first hf (fun g => ¬(cont g = false ∧ fit g = true))]
    exact forall_congr' fun t => imp_congr Iff.rfl (hpt _)
  have hsksIff : (circuitSkips n cont first n = 0) ↔ (∀ g < n, cont g = false) := by
    rw [circuitSkips_eq_zero_iff n cont hn n first hf,
      ← forall_circuit_iff_forall_lt n first hf (fun g => cont g = false)]
  have hblockIff : (circuitFind n fit first n = none) ↔ (∀ g < n, fit g = false) := by
    rw [circuitFind_eq_none_iff n fit hn n first hf,
      ← forall_circuit_iff_forall_lt n first hf (fun g => fit g = false)]
  have htry2n := getLocalScan_try_circuit n fit cont first hn hf n first 0 (2 * n)
    hf hdist (by omega)
  cases hct : circuitFind n (fun g => !cont g && fit g) first n with
  | some g =>
    rw [hct] at htry2n
    have hg := circuitFind_some n _ hn n first g hf hct
    have hgo : cont g = false ∧ fit g = true := by
      have hx := hg.1
      revert hx
      cases hc : cont g <;> cases hf2 : fit g <;> simp
    refine ⟨by rw [htry2n]; simp, ?_, ?_, ?_⟩
    · rw [htry2n]
      constructor
      · intro h; simp at h
      · rintro ⟨h1, _⟩; exact absurd hgo (h1 g hg.2)
    · intro h1 _; exact absurd hgo (h1 g hg.2)
    · intro _ h2
      have hx := h2 g hg.2
      exact absurd hgo.2 (by simp [hx])
  | none =>
    rw [hct] at htry2n
    simp only [Nat.zero_add] at htry2n
    have h2nn : 2 * n - n = n := by omega
    rw [h2nn] at htry2n
    have htryn := getLocalScan_try_circuit n fit cont first hn hf n first 0 n
      hf hdist (le_refl n)
    rw [hct] at htryn
    simp only [Nat.zero_add] at htryn
    by_cases hsk : circuitSkips n cont first n = 0
    · rw [if_pos hsk] at htry2n htryn
      refine ⟨by rw [htry2n]; simp, ?_, ?_, ?_⟩
      · rw [htry2n]
        constructor
        · intro _; exact ⟨hfindTryIff.mp hct, Or.inl (hsksIff.mp hsk)⟩
        · intro _; rfl
      · rintro _ ⟨g, hg, hcg⟩
        have hx := hsksIff.mp hsk g hg
        rw [hcg] at hx; cases hx
      · intro _ _; exact htryn
    · rw [if_neg hsk] at htry2n htryn
      have hblock := getLocalScan_block_circuit n fit cont first hf n first
        (circuitSkips n cont first n) n hf hdist (le_refl n)
      rw [hblock] at htry2n
      have hnn : n - n = 0 := by omega
      rw [hnn] at htryn
      have hLn : getLocalScan n fit cont first first true 0 0 n = none := by
        rw [htryn]; rfl
      cases hcb : circuitFind n fit first n with
      | some g =>
        rw [hcb] at htry2n
        have hg := circuitFind_some n fit hn n first g hf hcb
        refine ⟨by rw [htry2n]; simp, ?_, fun _ _ => hLn, ?_⟩
        · rw [htry2n]
          constructor
          · intro h; simp at h
          · rintro ⟨_, h2 | h2⟩
            · exact absurd (hsksIff.mpr h2) hsk
            · have hx := h2 g hg.2
              rw [hg.1] at hx; cases hx
        · intro h2 _; exact absurd (hsksIff.mpr h2) hsk
      | none =>
        rw [hcb] at htry2n
        refine ⟨by rw [htry2n]; simp, ?_, fun _ _ => hLn, ?_⟩
        · rw [htry2n]
          constructor
          · intro _; exact ⟨hfindTryIff.mp hct, Or.inr (hblockIff.mp hcb)⟩
          · intro _; rfl
        · intro h2 _; exact absurd (hsksIff.mpr h2) hsk

/-- Witness for `c1_full_scan_two_circuits` at concrete instances: with two
groups, no contention and group 1 fitting, the scan terminates within two
circuits; with group 0 contended and nothing fitting, the scan is still
running after one circuit (a second circuit is made). -/
theorem c1_full_scan_two_circuits_witness :
    (getLocalScan 2 (fun g => decide (g = 1)) (fun _ => false) 0 0 true 0 0 (2 * 2) ≠ none) ∧
    (getLocalScan 2 (fun _ => false) (fun g => decide (g = 0)) 0 0 true 0 0 2 = none) := by
  constructor
  · exact (c1_full_scan_two_circuits 2 0 (fun g => decide (g = 1)) (fun _ => false)
      (by decide) (by decide)).1
  · exact (c1_full_scan_two_circuits 2 0 (fun _ => false) (fun g => decide (g = 0))
      (by decide) (by decide)).2.2.1
      (fun g _ => by simp)
      ⟨0, by decide, by decide⟩

/-! ## Claim C4 — rgblk_search always finds a bit -/

theorem listSetGet {α : Type} (l : List α) (i : Nat) (a : α) (h : i < l.length) :
    (l.set i a).get? i = some a := by
  induction l generalizing i with
  | nil => simp at h
  | cons x xs ih =>
    match i with
    | 0 => rfl
    | i + 1 =>
      simp only [List.set, List.get?]
      exact ih i (by simpa using h)

theorem listSetGetD {α : Type} [Inhabited α] (l : List α) (i : Nat) (a : α)
    (h : i < l.length) : (l.set i a).getD i default = a := by
  rw [List.getD_eq_get?, listSetGet l i a h]
  rfl

theorem segsContig_start_le (bs : List RgBits) :
    ∀ (c i : Nat) (bi : RgBits), segsContig c bs = true → bs.get? i = some bi →
      c ≤ bi.bi_start := by
  induction bs with
  | nil => intro c i bi _ hg; simp at hg
  | cons b rest ih =>
    intro c i bi hc hg
    simp only [segsContig, Bool.and_eq_true, beq_iff_eq] at hc
    match i with
    | 0 =>
      simp only [List.get?] at hg
      cases hg
      omega
    | i + 1 =>
      simp only [List.get?] at hg
      have := ih (c + b.bi_len) i bi hc.2 hg
      omega

/-- Existence of the covering segment: with contiguous segments spanning
cells `[c*4, (c + sumLens bs)*4)`, any `q` in that range is covered by the
first segment whose boundary exceeds it. -/
theorem firstSegIdx_covers (bs : List RgBits) :
    ∀ (c q : Nat), segsContig c bs = true → c * 4 ≤ q → q < (c + sumLens bs) * 4 →
      ∃ i bi, firstSegIdx q bs = some i ∧ bs.get? i = some bi ∧
        bi.bi_start * 4 ≤ q ∧ q < (bi.bi_start + bi.bi_len) * 4 := by
  induction bs with
  | nil =>
    intro c q _ h1 h2
    simp only [sumLens, List.foldr_nil] at h2
    omega
  | cons b rest ih =>
    intro c q hc h1 h2
    simp only [segsContig, Bool.and_eq_true, beq_iff_eq] at hc
    by_cases hcase : q < (b.bi_start + b.bi_len) * 4
    · refine ⟨0, b, ?_, rfl, ?_, hcase⟩
      · simp [firstSegIdx, hcase]
      · omega
    · have hc1 : (c + b.bi_len) * 4 ≤ q := by omega
      have hc2 : q < (c + b.bi_len + sumLens rest) * 4 := by
        simp only [sumLens, List.foldr_cons] at h2
        have : sumLens rest = List.foldr (fun bi a => bi.bi_len + a) 0 rest := rfl
        omega
      obtain ⟨i, bi, hfi, hgi, hl, hr⟩ := ih (c + b.bi_len) q hc.2 hc1 hc2
      refine ⟨i + 1, bi, ?_, by simpa using hgi, hl, hr⟩
      simp [firstSegIdx, hcase, hfi]

/-- The segment lookup resolves `q` to a given segment `b` when `q` lies in
that segment's cell range. -/
theorem firstSegIdx_locate (bs : List RgBits) :
    ∀ (c b : Nat) (bi : RgBits), segsContig c bs = true → bs.get? b = some bi →
      ∀ q, bi.bi_start * 4 ≤ q → q < (bi.bi_start + bi.bi_len) * 4 →
        firstSegIdx q bs = some b := by
  induction bs with
  | nil => intro c b bi _ hg; simp at hg
  | cons hd rest ih =>
    intro c b bi hc hg q hl hr
    simp only [segsContig, Bool.and_eq_true, beq_iff_eq] at hc
    match b with
    | 0 =>
      simp only [List.get?] at hg
      cases hg
      simp [firstSegIdx, hr]
    | b + 1 =>
      simp only [List.get?] at hg
      have hge : c + hd.bi_len ≤ bi.bi_start :=
        segsContig_start_le rest (c + hd.bi_len) b bi hc.2 hg
      have hno : ¬ (q < (hd.bi_start + hd.bi_len) * 4) := by
        have : hd.bi_start = c := hc.1
        omega
      simp only [firstSegIdx, if_neg hno]
      rw [ih (c + hd.bi_len) b bi hc.2 hg q hl hr]
      rfl

/-- If the set `bits.set b bi'` changes neither `bi_start` nor `bi_len` of
entry `b`, the segment lookup is unchanged. -/
theorem firstSegIdx_set (bs : List RgBits) :
    ∀ (b : Nat) (bi bi' : RgBits), bs.get? b = some bi →
      bi'.bi_start = bi.bi_start → bi'.bi_len = bi.bi_len →
      ∀ q, firstSegIdx q (bs.set b bi') = firstSegIdx q bs := by
  induction bs with
  | nil => intro b bi bi' hg; simp at hg
  | cons hd rest ih =>
    intro b bi bi' hg hs hl q
    match b with
    | 0 =>
      simp only [List.get?] at hg
      cases hg
      simp only [List.set, firstSegIdx, hs, hl]
    | b + 1 =>
      simp only [List.get?] at hg
      simp only [List.set, firstSegIdx]
      rw [ih b bi bi' hg hs hl q]

theorem scanGo_finds (bits : List RgBits) (old : Nat) :
    ∀ (k buf g : Nat), buf < bits.length →
      (∃ t < k, ∃ bi, bits.get? ((buf + t) % bits.length) = some bi ∧
        old ∈ effCells bi) →
      ∃ b bl, scanGo bits old buf g k = .ok (b, bl) := by
  intro k
  induction k with
  | zero =>
    rintro buf g _ ⟨t, ht, _⟩
    omega
  | succ k ih =>
    rintro buf g hb ⟨t, ht, bi, hbi, hmem⟩
    cases hbf : gfs2_bitfit (effCells (bits.getD buf default)) g old with
    | some blk =>
      exact ⟨buf, blk, by simp only [scanGo, hbf]⟩
    | none =>
      have hnone := (gfs2_bitfit_none_iff _ _ _).mp hbf
      match t with
      | 0 =>
        rw [Nat.add_zero, Nat.mod_eq_of_lt hb] at hbi
        have hgd : bits.getD buf default = bi := by
          rw [List.getD_eq_get?, hbi]; rfl
        rw [hgd] at hnone
        exact absurd rfl (hnone old hmem)
      | t + 1 =>
        have hstep : ((buf + 1) % bits.length + t) % bits.length =
            (buf + (t + 1)) % bits.length := by
          rw [Nat.mod_add_mod]
          congr 1
          omega
        obtain ⟨b, bl, hres⟩ := ih ((buf + 1) % bits.length) 0
          (Nat.mod_lt _ (by omega))
          ⟨t, by omega, bi, by rw [hstep]; exact hbi, hmem⟩
        exact ⟨b, bl, by simp only [scanGo, hbf]; exact hres⟩

theorem scanGo_ok (bits : List RgBits) (old : Nat) :
    ∀ (k buf g b bl : Nat), buf < bits.length →
      scanGo bits old buf g k = .ok (b, bl) →
      b < bits.length ∧ (effCells (bits.getD b default)).get? bl = some old := by
  intro k
  induction k with
  | zero => intro buf g b bl _ h; simp [scanGo] at h
  | succ k ih =>
    intro buf g b bl hb h
    cases hbf : gfs2_bitfit (effCells (bits.getD buf default)) g old with
    | some blk =>
      simp only [scanGo, hbf] at h
      cases h
      exact ⟨hb, gfs2_bitfit_some_get _ _ _ _ hbf⟩
    | none =>
      simp only [scanGo, hbf] at h
      exact ih ((buf + 1) % bits.length) 0 b bl (Nat.mod_lt _ (by omega)) h

theorem listGetSomeLt {α : Type} (l : List α) (n : Nat) (a : α)
    (h : l.get? n = some a) : n < l.length := by
  by_contra hn
  rw [List.get?_eq_none.mpr (by omega)] at h
  cases h

/-- C4, confirmed: whenever at least one cell of the group — read through
the effective buffers, clone shadow when present, else live buffer — is in
the requested `old` state, and the goal offset lies inside the group's cell
range, `rgblk_search` does not panic, does not take the withdrawal branch
(the wrap is bounded by `length + 1` segment scans, the scan budget in the
definition), and returns the group-relative number of a cell that was in the
`old` state and is now set to `newState` in the live buffer and, when that
segment has a clone shadow, in the clone as well.  There is no not-found
return alternative. -/
theorem c4_rgblk_search_finds (rgd : Rgd) (goal old newState : Nat)
    (hwf : rgdWFb rgd = true)
    (hg : goal < rgd.rd_ri.ri_data)
    (hex : rgd.rd_bits.any (fun bi => decide (old ∈ effCells bi)) = true) :
    ∃ out, rgblk_search rgd goal old newState = some out ∧
      out.withdrew = false ∧
      relCellEff rgd out.blk = some old ∧
      relCellLive out.rgd out.blk = some newState ∧
      (relCellClone rgd out.blk ≠ none →
        relCellClone out.rgd out.blk = some newState) := by
  simp only [rgdWFb, Bool.and_eq_true, beq_iff_eq, Bool.not_eq_true'] at hwf
  obtain ⟨⟨⟨hne, hctg⟩, hsum⟩, hall⟩ := hwf
  have hnil : rgd.rd_bits ≠ [] := by
    intro h; rw [h] at hne; simp at hne
  have hlenpos : 0 < rgd.rd_bits.length := List.length_pos.mpr hnil
  have hseg : ∀ (b : Nat) (bi : RgBits), rgd.rd_bits.get? b = some bi →
      bi.bi_bh.length = bi.bi_len * 4 ∧
      (∀ cl, bi.bi_clone = some cl → cl.length = bi.bi_len * 4) := by
    intro b bi hb
    have hmem : bi ∈ rgd.rd_bits := List.get?_mem hb
    have hx := (List.all_eq_true.mp hall) bi hmem
    simp only [Bool.and_eq_true, beq_iff_eq] at hx
    refine ⟨hx.1, ?_⟩
    intro cl hcl
    have hx2 := hx.2
    rw [hcl] at hx2
    simpa using hx2
  have heff : ∀ (b : Nat) (bi : RgBits), rgd.rd_bits.get? b = some bi →
      (effCells bi).length = bi.bi_len * 4 := by
    intro b bi hb
    obtain ⟨h1, h2⟩ := hseg b bi hb
    cases hcl : bi.bi_clone with
    | none => simp [effCells, hcl, h1]
    | some cl => simp [effCells, hcl, h2 cl hcl]
  obtain ⟨buf0, bi0, hf0, hg0, _, _⟩ := firstSegIdx_covers rgd.rd_bits 0 goal hctg
    (by omega) (by simp only [Nat.zero_add]; omega)
  have hbuf0lt : buf0 < rgd.rd_bits.length := listGetSomeLt _ _ _ hg0
  rw [List.any_eq_true] at hex
  obtain ⟨bi, hbimem, hcont⟩ := hex
  have hmem : old ∈ effCells bi := of_decide_eq_true hcont
  obtain ⟨j, hj⟩ := List.mem_iff_get?.mp hbimem
  have hjlt : j < rgd.rd_bits.length := listGetSomeLt _ _ _ hj
  have hcover : ∃ t < rgd.rd_bits.length + 1, ∃ bi',
      rgd.rd_bits.get? ((buf0 + t) % rgd.rd_bits.length) = some bi' ∧
      old ∈ effCells bi' := by
    by_cases hge : buf0 ≤ j
    · refine ⟨j - buf0, by omega, bi, ?_, hmem⟩
      rw [show buf0 + (j - buf0) = j by omega, Nat.mod_eq_of_lt hjlt]
      exact hj
    · refine ⟨j + rgd.rd_bits.length - buf0, by omega, bi, ?_, hmem⟩
      rw [show buf0 + (j + rgd.rd_bits.length - buf0) = j + rgd.rd_bits.length by omega,
        Nat.add_mod_right, Nat.mod_eq_of_lt hjlt]
      exact hj
  obtain ⟨b, bl, hscan⟩ := scanGo_finds rgd.rd_bits old (rgd.rd_bits.length + 1) buf0
    (goal - bi0.bi_start * 4) hbuf0lt hcover
  obtain ⟨hblt, hcell⟩ := scanGo_ok rgd.rd_bits old (rgd.rd_bits.length + 1) buf0
    (goal - bi0.bi_start * 4) b bl hbuf0lt hscan
  obtain ⟨bib, hgetb⟩ : ∃ bib, rgd.rd_bits.get? b = some bib :=
    ⟨rgd.rd_bits.get ⟨b, hblt⟩, List.get?_eq_get hblt⟩
  have hgdb : rgd.rd_bits.getD b default = bib := by
    rw [List.getD_eq_get?, hgetb]; rfl
  rw [hgdb] at hcell
  have hbl_lt : bl < bib.bi_len * 4 := by
    have := listGetSomeLt _ _ _ hcell
    rwa [heff b bib hgetb] at this
  have hlocate : firstSegIdx (bib.bi_start * 4 + bl) rgd.rd_bits = some b :=
    firstSegIdx_locate rgd.rd_bits 0 b bib hctg hgetb _ (by omega) (by omega)
  have hblk : (rgblkMark rgd b bl newState false).blk = bib.bi_start * 4 + bl := by
    simp only [rgblkMark]; rw [hgdb]
  have hsub : bib.bi_start * 4 + bl - bib.bi_start * 4 = bl := by omega
  refine ⟨rgblkMark rgd b bl newState false, ?_, rfl, ?_, ?_, ?_⟩
  · have hgd0 : rgd.rd_bits.getD buf0 default = bi0 := by
      rw [List.getD_eq_get?, hg0]; rfl
    simp only [rgblk_search]
    rw [hf0]
    simp only [hgd0]
    rw [hscan]
  · rw [hblk]
    simp only [relCellEff]
    rw [hlocate]
    show (effCells (rgd.rd_bits.getD b default)).get?
      (bib.bi_start * 4 + bl - (rgd.rd_bits.getD b default).bi_start * 4) = some old
    rw [hgdb, hsub]
    exact hcell
  · rw [hblk]
    have hsetIdx := firstSegIdx_set rgd.rd_bits b bib
      { bib with bi_bh := gfs2_setbit bib.bi_bh bl newState,
                 bi_clone := bib.bi_clone.map (fun cl => gfs2_setbit cl bl newState) }
      hgetb rfl rfl
    simp only [relCellLive, rgblkMark]
    rw [hgdb]
    rw [hsetIdx, hlocate]
    show ((rgd.rd_bits.set b _).getD b default).bi_bh.get?
      (bib.bi_start * 4 + bl - ((rgd.rd_bits.set b _).getD b default).bi_start * 4) =
      some newState
    rw [listSetGetD _ _ _ hblt, hsub]
    simp only [gfs2_setbit]
    exact listSetGet _ _ _ (by rw [(hseg b bib hgetb).1]; omega)
  · intro hclne
    rw [hblk] at hclne ⊢
    simp only [relCellClone] at hclne ⊢
    rw [hlocate] at hclne
    obtain ⟨cl, hcl⟩ : ∃ cl, bib.bi_clone = some cl := by
      revert hclne
      show (match (rgd.rd_bits.getD b default).bi_clone with
        | none => (none : Option Nat)
        | some cl => cl.get?
            (bib.bi_start * 4 + bl - (rgd.rd_bits.getD b default).bi_start * 4)) ≠ none →
        ∃ cl, bib.bi_clone = some cl
      rw [hgdb]
      cases hc : bib.bi_clone with
      | none => intro hx; simp at hx
      | some cl => intro _; exact ⟨cl, rfl⟩
    have hsetIdx := firstSegIdx_set rgd.rd_bits b bib
      { bib with bi_bh := gfs2_setbit bib.bi_bh bl newState,
                 bi_clone := bib.bi_clone.map (fun cl => gfs2_setbit cl bl newState) }
      hgetb rfl rfl
    simp only [rgblkMark]
    rw [hgdb]
    rw [hsetIdx, hlocate]
    show (match ((rgd.rd_bits.set b _).getD b default).bi_clone with
      | none => (none : Option Nat)
      | some cl => cl.get?
          (bib.bi_start * 4 + bl - ((rgd.rd_bits.set b _).getD b default).bi_start * 4)) =
      some newState
    rw [listSetGetD _ _ _ hblt]
    simp only [hcl, Option.map_some', hsub, gfs2_setbit]
    exact listSetGet _ _ _ (by rw [(hseg b bib hgetb).2 cl hcl]; omega)

/-- A two-segment group used to witness `c4_rgblk_search_finds`: segment 0
carries a clone shadow with no free cell (its live buffer does have one, at
offset 0, which the effective read must ignore), segment 1 is all free. -/
def scenarioWrap : Rgd :=
  { rd_ri := { ri_data0 := 0, ri_data := 8 },
    rd_rg := { rg_free := 4, rg_dinodes := 0 },
    rd_bits := [{ bi_start := 0, bi_len := 1, bi_bh := [0, 1, 1, 1],
                  bi_clone := some [1, 1, 1, 1] },
                { bi_start := 1, bi_len := 1, bi_bh := [0, 0, 0, 0],
                  bi_clone := none }],
    rd_free_clone := 4,
    rd_last_alloc_data := 0,
    rd_last_alloc_meta := 0 }

/-- Witness for `c4_rgblk_search_finds` on `scenarioWrap` with goal 5. -/
theorem c4_rgblk_search_finds_witness :
    ∃ out, rgblk_search scenarioWrap 5 0 1 = some out ∧
      out.withdrew = false ∧
      relCellEff scenarioWrap out.blk = some 0 ∧
      relCellLive out.rgd out.blk = some 1 ∧
      (relCellClone scenarioWrap out.blk ≠ none →
        relCellClone out.rgd out.blk = some 1) :=
  c4_rgblk_search_finds scenarioWrap 5 0 1 (by decide) (by decide) (by decide)

/-! ## Extended-attribute data model (eattr.c)

Attribute blocks are modelled at record granularity: `recs o` is the record
whose header starts at payload offset `o` (payload offsets are relative to
the first record, i.e. the C `bh->b_data + sizeof(struct gfs2_meta_header)`;
`b_avail` is the payload size `bh->b_size - sizeof(struct gfs2_meta_header)`,
the filesystem's `sd_jbsize`).  With payload offsets the C bounds check
`bh->b_data <= (char*)ea` holds trivially (offsets are `Nat`), the check
`GFS2_EA2NEXT(ea) <= bh->b_data + bh->b_size` becomes
`o + ea_rec_len ≤ b_avail`, and the last-record end check
`GFS2_EA2NEXT(ea) == bh->b_data + bh->b_size` becomes
`o + ea_rec_len = b_avail`.

Modelled from the spec: the record header fields of eattr.h (which is not
among the given sources) — `ea_last` is the `GFS2_EAFLAG_LAST` bit of
`ea_flags`; an unstuffed value's data-block contents are inlined in
`ea_data` (the pointer array itself is not modelled, only `ea_num_ptrs`). -/

structure EaRec where
  ea_rec_len : Nat
  ea_data_len : Nat
  ea_name_len : Nat
  ea_type : Nat
  ea_last : Bool
  ea_num_ptrs : Nat
  ea_name : List Nat
  ea_data : List Nat
deriving DecidableEq

instance : Inhabited EaRec := ⟨⟨0, 0, 0, 0, false, 0, [], []⟩⟩

structure EaBlock where
  b_avail : Nat
  b_magicOk : Bool
  recs : Nat → EaRec

instance : Inhabited EaBlock := ⟨⟨0, false, fun _ => default⟩⟩

def GFS2_EATYPE_UNUSED : Nat := 0
def GFS2_EATYPE_USR : Nat := 1
def GFS2_EATYPE_SYS : Nat := 2

/-- Modelled from the spec: the recognized record-type variants
(unused / user / system, security ACLs being stored under the system type);
the C `GFS2_EATYPE_VALID(x)` of eattr.h. -/
def eatypeValid (t : Nat) : Bool := t ≤ 2

/-- The three per-record validations of `ea_foreach_i` (eattr.c:86-93) that
run before the callback: non-zero record length, record extent inside the
containing block, recognized type. -/
def eaRecValid (blk : EaBlock) (o : Nat) : Bool :=
  let ea := blk.recs o
  (ea.ea_rec_len != 0) && decide (o + ea.ea_rec_len ≤ blk.b_avail) &&
    eatypeValid ea.ea_type

/-- Outcome of one attribute-block traversal.  `corruptRec o` is the
`goto fail` of a pre-callback validation at record `o` and `corruptEnd o`
the failed last-record end check after the callback — both reach
`gfs2_consist_inode` (withdrawal) and return `-EIO`; `badMagic` is the
initial metatype check (`-EIO` without withdrawal); `stopped rc` is a
nonzero callback return, propagated as is; `noFuel` is the fuel sentinel,
proved unreachable at the fuel `ea_foreach_i` supplies. -/
inductive EaFE where
  | ok
  | stopped (rc : Int)
  | corruptRec (o : Nat)
  | corruptEnd (o : Nat)
  | badMagic
  | noFuel
deriving DecidableEq

structure EaWalkOut (σ : Type) where
  res : EaFE
  st : σ
  visited : List Nat

/-- Callback type of the traversal: (containing block, block index, record
offset, previous record's offset, private state) to (int return, state);
0 = continue, positive = stop-and-report-found, negative = abort. -/
def EaCall (σ : Type) : Type :=
  EaBlock → Nat → Nat → Option Nat → σ → Int × σ

/-- The record loop of `ea_foreach_i` (eattr.c:85-105).  `visited` collects
the offsets on which the callback ran, in order. -/
def eaForeachGo {σ : Type} (blk : EaBlock) (blkIdx : Nat) (call : EaCall σ) :
    Nat → Nat → Option Nat → σ → EaWalkOut σ
  | 0, _, _, s => ⟨.noFuel, s, []⟩
  | fuel + 1, o, prev, s =>
    let ea := blk.recs o
    if ea.ea_rec_len = 0 then ⟨.corruptRec o, s, []⟩
    else if ¬ (o + ea.ea_rec_len ≤ blk.b_avail) then ⟨.corruptRec o, s, []⟩
    else if ¬ (eatypeValid ea.ea_type = true) then ⟨.corruptRec o, s, []⟩
    else
      let r := call blk blkIdx o prev s
      if r.1 ≠ 0 then ⟨.stopped r.1, r.2, [o]⟩
      else if ea.ea_last then
        if o + ea.ea_rec_len = blk.b_avail then ⟨.ok, r.2, [o]⟩
        else ⟨.corruptEnd o, r.2, [o]⟩
      else
        let rest := eaForeachGo blk blkIdx call fuel (o + ea.ea_rec_len) (some o) r.2
        ⟨rest.res, rest.st, o :: rest.visited⟩

/-- `ea_foreach_i` (eattr.c:76): metatype check, then the record walk from
the first record.  The fuel `b_avail + 1` bounds the walk (each step
advances the offset by at least one while staying within `b_avail`). -/
def ea_foreach_i {σ : Type} (blk : EaBlock) (blkIdx : Nat) (call : EaCall σ)
    (s : σ) : EaWalkOut σ :=
  if blk.b_magicOk then eaForeachGo blk blkIdx call (blk.b_avail + 1) 0 none s
  else ⟨.badMagic, s, []⟩

def eaFEtoInt : EaFE → Int
  | .ok => 0
  | .stopped rc => rc
  | .corruptRec _ => -eIOerr
  | .corruptEnd _ => -eIOerr
  | .badMagic => -eIOerr
  | .noFuel => -eIOerr

/-- An attribute store: the block reached from `di_eattr`, or — when the
inode is flagged `GFS2_DIF_EA_INDIRECT` — the chain of attribute blocks
listed (in order, nonzero pointers only) in the indirect block, whose own
metatype check is `indMagicOk`. -/
structure EaStore where
  indirect : Bool
  indMagicOk : Bool
  blocks : List EaBlock

/-- The indirect-block iteration of `ea_foreach` (eattr.c:138-153). -/
def eaForeachBlocks {σ : Type} (call : EaCall σ) :
    List EaBlock → Nat → σ → Int × σ
  | [], _, s => (0, s)
  | b :: rest, i, s =>
    let w := ea_foreach_i b i call s
    let e := eaFEtoInt w.res
    if e ≠ 0 then (e, w.st) else eaForeachBlocks call rest (i + 1) w.st

/-- `ea_foreach` (eattr.c:114). -/
def ea_foreach {σ : Type} (store : EaStore) (call : EaCall σ) (s : σ) : Int × σ :=
  if store.indirect then
    if store.indMagicOk then eaForeachBlocks call store.blocks 0 s
    else (-eIOerr, s)
  else
    let w := ea_foreach_i (store.blocks.headD default) 0 call s
    (eaFEtoInt w.res, w.st)

structure EaLoc where
  blkIdx : Nat
  o : Nat
  prev : Option Nat
deriving DecidableEq

/-- `struct gfs2_ea_request`, restricted to the fields the embedded code
reads.  `er_data = none` models a null data pointer; `er_create` and
`er_replace` are the `XATTR_CREATE` / `XATTR_REPLACE` bits of `er_flags`. -/
structure EaRequest where
  er_type : Nat
  er_name : List Nat
  er_name_len : Nat
  er_data : Option (List Nat)
  er_data_len : Nat
  er_create : Bool
  er_replace : Bool
deriving DecidableEq

/-- `ea_find_i` (eattr.c:165): skip unused records, stop with 1 on the first
exact (type, name length, name bytes) match, recording the location. -/
def ea_find_i (er : EaRequest) : EaCall (Option EaLoc) := fun blk blkIdx o prev s =>
  let ea := blk.recs o
  if ea.ea_type = GFS2_EATYPE_UNUSED then (0, s)
  else if ea.ea_type = er.er_type ∧ ea.ea_name_len = er.er_name_len ∧
          ea.ea_name = er.er_name then
    (1, some ⟨blkIdx, o, prev⟩)
  else (0, s)

/-- `gfs2_ea_find` (eattr.c:196): a positive traversal result (found) maps
to 0 with the location set. -/
def gfs2_ea_find (er : EaRequest) (store : EaStore) : Int × Option EaLoc :=
  let r := ea_foreach store (ea_find_i er) none
  if r.1 > 0 then (0, r.2) else (r.1, r.2)

def blockRecAt (store : EaStore) (loc : EaLoc) : EaRec :=
  (store.blocks.getD loc.blkIdx default).recs loc.o

/-- The per-inode state the embedded eattr entry points read and write:
the attribute store (`di_eattr` = 0 is `none`), the `GFS2_DIF_APPENDONLY`
dinode flag and the VFS immutable flag. -/
structure EaState where
  di_eattr : Option EaStore
  appendonly : Bool
  immutable : Bool

/-- `gfs2_ea_get_i` (eattr.c:554).  The second component records whether
value bytes were copied into the caller's buffer (`gfs2_ea_get_copy`, whose
stuffed copy and unstuffed block reads are modelled as succeeding). -/
def gfs2_ea_get_i (ip : EaState) (er : EaRequest) : Int × Bool :=
  match ip.di_eattr with
  | none => (-eNoData, false)
  | some store =>
    let fr := gfs2_ea_find er store
    if fr.1 ≠ 0 then (fr.1, false)
    else
      match fr.2 with
      | none => (-eNoData, false)
      | some loc =>
        let ea := blockRecAt store loc
        if er.er_data_len ≠ 0 then
          if ea.ea_data_len > er.er_data_len then (-eRange, false)
          else (Int.ofNat ea.ea_data_len, true)
        else (Int.ofNat ea.ea_data_len, false)

def GFS2_EA_MAX_NAME_LEN : Nat := 255

/-- `gfs2_ea_get` (eattr.c:590): name validation, normalization of a null
or empty buffer to (null, 0), then the type-dispatched get (the eaops
dispatch and the shared glock are collaborators, modelled as the direct
call). -/
def gfs2_ea_get (ip : EaState) (er : EaRequest) : Int × Bool :=
  if er.er_name_len = 0 ∨ er.er_name_len > GFS2_EA_MAX_NAME_LEN then (-eInval, false)
  else
    gfs2_ea_get_i ip
      (if er.er_data = none ∨ er.er_data_len = 0
       then { er with er_data := none, er_data_len := 0 } else er)

/-! ## Set path (eattr.c:617-1155) -/

/-- Events observable by the claims: taking the inode's exclusive glock,
opening a transaction, allocating a block. -/
inductive EaEvent where
  | lockEx
  | transBegin
  | blockAlloc
deriving DecidableEq

/-- Modelled from the spec: the fixed maximum attribute value size (the C
`GFS2_EA_MAX_DATA_LEN` of the on-disk format headers, not among the given
sources; the spec gives "a fixed maximum, e.g. 64KiB name+data"). -/
def eaMaxDataLen : Nat := 65536

/-- Modelled from the spec: record sizes are rounded to an 8-byte alignment
unit (`GFS2_EA_SIZE_ALIGN`). -/
def eaAlign (x : Nat) : Nat := ((x + 7) / 8) * 8

/-- Modelled from the spec: the record header size of the on-disk format. -/
def eaHeaderSize : Nat := 16

def divRU (a b : Nat) : Nat := (a + b - 1) / b

/-- Modelled from the spec: `GFS2_EAREQ_SIZE_STUFFED` — header + name +
inline data, aligned. -/
def eaSizeStuffed (er : EaRequest) : Nat :=
  eaAlign (eaHeaderSize + er.er_name_len + er.er_data_len)

/-- Modelled from the spec: `GFS2_EAREQ_SIZE_UNSTUFFED` — header + name +
one 8-byte pointer per data block, aligned. -/
def eaSizeUnstuffed (jb : Nat) (er : EaRequest) : Nat :=
  eaAlign (eaHeaderSize + er.er_name_len + 8 * divRU er.er_data_len jb)

/-- `ea_calc_size` (eattr.c:42): the stuffed size when it fits one block's
payload (`sd_jbsize`), else the unstuffed size; the Bool is "stuffed". -/
def ea_calc_size (jb : Nat) (er : EaRequest) : Bool × Nat :=
  let s := eaSizeStuffed er
  if s ≤ jb then (true, s) else (false, eaSizeUnstuffed jb er)

/-- `ea_check_size` (eattr.c:54). -/
def ea_check_size (jb : Nat) (er : EaRequest) : Int :=
  if er.er_data_len > eaMaxDataLen then -eRange
  else if (ea_calc_size jb er).2 > jb then -eRange
  else 0

/-- `ea_write` (eattr.c:660) on one record: sets the type, name and data
fields but not `ea_rec_len` or the LAST flag; a stuffed request stores the
data inline (`ea_num_ptrs = 0`), an unstuffed one allocates
`DIV_RU(data_len, jbsize)` data blocks (contents inlined in the model's
`ea_data`). -/
def ea_write_rec (jb : Nat) (er : EaRequest) (ea : EaRec) : EaRec :=
  if eaSizeStuffed er ≤ jb then
    { ea with ea_data_len := er.er_data_len, ea_name_len := er.er_name_len,
              ea_type := er.er_type, ea_name := er.er_name,
              ea_num_ptrs := 0, ea_data := er.er_data.getD [] }
  else
    { ea with ea_data_len := er.er_data_len, ea_name_len := er.er_name_len,
              ea_type := er.er_type, ea_name := er.er_name,
              ea_num_ptrs := divRU er.er_data_len jb, ea_data := er.er_data.getD [] }

/-- The fresh block of `ea_alloc_blk` (eattr.c:624): one unused record
spanning the whole payload, flagged last. -/
def ea_alloc_blk_rec (jb : Nat) : EaRec :=
  { ea_rec_len := jb, ea_data_len := 0, ea_name_len := 0,
    ea_type := GFS2_EATYPE_UNUSED, ea_last := true, ea_num_ptrs := 0,
    ea_name := [], ea_data := [] }

/-- `ea_init` via `ea_alloc_skeleton` and `ea_init_i` (eattr.c:720-819):
quota, reservation and transaction collaborators are modelled as
succeeding; a new attribute block is allocated, `di_eattr` set to it, and
the request written into its first record.  The events record the
transaction begin and the block allocations (one for the attribute block,
plus one per unstuffed data block). -/
def ea_init (jb : Nat) (ip : EaState) (er : EaRequest) :
    Int × EaState × List EaEvent :=
  let extra := if eaSizeStuffed er ≤ jb then 0 else divRU er.er_data_len jb
  let blk : EaBlock :=
    { b_avail := jb, b_magicOk := true,
      recs := fun o => if o = 0 then ea_write_rec jb er (ea_alloc_blk_rec jb)
              else default }
  (0,
   { ip with di_eattr := some { indirect := false, indMagicOk := true,
                                blocks := [blk] } },
   .transBegin :: .blockAlloc :: List.replicate extra .blockAlloc)

/-- The in-place/new-block update path of `ea_set_i` (the `ea_foreach
ea_set_simple` pass and the `ea_alloc_skeleton ea_set_block` fallback,
eattr.c:871-1074).  The claims under verification return before this path
runs, so it is kept as an explicit parameter: the theorems below hold for
every behavior of it. -/
def SetPathFn : Type :=
  EaRequest → EaState → Option EaLoc → Int × EaState × List EaEvent

/-- `ea_set_remove_unstuffed` (eattr.c:1076), likewise parameterized; its
return value is discarded by the caller (eattr.c:1114). -/
def RemoveUnstuffedFn : Type := EaRequest → EaState → EaLoc → EaState

/-- `gfs2_ea_set_i` (eattr.c:1088). -/
def gfs2_ea_set_i (sp : SetPathFn) (ru : RemoveUnstuffedFn) (jb : Nat)
    (ip : EaState) (er : EaRequest) : Int × EaState × List EaEvent :=
  match ip.di_eattr with
  | none =>
    if er.er_replace then (-eNoData, ip, [])
    else ea_init jb ip er
  | some store =>
    let fr := gfs2_ea_find er store
    if fr.1 ≠ 0 then (fr.1, ip, [])
    else
      match fr.2 with
      | some loc =>
        if ip.appendonly then (-ePerm, ip, [])
        else if er.er_create then (-eExist, ip, [])
        else
          let unstuffed := (blockRecAt store loc).ea_num_ptrs ≠ 0
          let r := sp er ip (some loc)
          if r.1 = 0 ∧ unstuffed then (0, ru er r.2.1 loc, r.2.2) else r
      | none =>
        if er.er_replace then (-eNoData, ip, [])
        else sp er ip none

/-- `gfs2_ea_set` (eattr.c:1127): name validation and buffer normalization,
the up-front `ea_check_size`, then the exclusive glock (the `.lockEx`
event), the immutable check and the type-dispatched `eo_set` (modelled as
the direct call to `gfs2_ea_set_i`). -/
def gfs2_ea_set (sp : SetPathFn) (ru : RemoveUnstuffedFn) (jb : Nat)
    (ip : EaState) (er : EaRequest) : Int × EaState × List EaEvent :=
  if er.er_name_len = 0 ∨ er.er_name_len > GFS2_EA_MAX_NAME_LEN then
    (-eInval, ip, [])
  else
    let er' := if er.er_data = none ∨ er.er_data_len = 0
               then { er with er_data := none, er_data_len := 0 } else er
    if ea_check_size jb er' ≠ 0 then (ea_check_size jb er', ip, [])
    else if ip.immutable then (-ePerm, ip, [.lockEx])
    else
      let r := gfs2_ea_set_i sp ru jb ip er'
      (r.1, r.2.1, .lockEx :: r.2.2)

/-! ## Claim C5 — ea_foreach_i validates before the callback -/

theorem eaForeachGo_visited_valid {σ : Type} (blk : EaBlock) (blkIdx : Nat)
    (call : EaCall σ) :
    ∀ (fuel o : Nat) (prev : Option Nat) (s : σ),
      ∀ o' ∈ (eaForeachGo blk blkIdx call fuel o prev s).visited,
        eaRecValid blk o' = true := by
  intro fuel
  induction fuel with
  | zero => intro o prev s o' h; simp [eaForeachGo] at h
  | succ fuel ih =>
    intro o prev s o' h
    simp only [eaForeachGo] at h
    by_cases h1 : (blk.recs o).ea_rec_len = 0
    · rw [if_pos h1] at h; simp at h
    · rw [if_neg h1] at h
      by_cases h2 : ¬ (o + (blk.recs o).ea_rec_len ≤ blk.b_avail)
      · rw [if_pos h2] at h; simp at h
      · rw [if_neg h2] at h
        by_cases h3 : ¬ (eatypeValid (blk.recs o).ea_type = true)
        · rw [if_pos h3] at h; simp at h
        · rw [if_neg h3] at h
          have hvalid : eaRecValid blk o = true := by
            simp only [eaRecValid, Bool.and_eq_true, bne_iff_ne, ne_eq,
              decide_eq_true_eq]
            exact ⟨⟨h1, by omega⟩, by simpa using h3⟩
          by_cases h4 : (call blk blkIdx o prev s).1 ≠ 0
          · rw [if_pos h4] at h
            simp at h
            subst h
            exact hvalid
          · rw [if_neg h4] at h
            by_cases h5 : (blk.recs o).ea_last = true
            · rw [if_pos h5] at h
              by_cases h6 : o + (blk.recs o).ea_rec_len = blk.b_avail
              · rw [if_pos h6] at h; simp at h; subst h; exact hvalid
              · rw [if_neg h6] at h; simp at h; subst h; exact hvalid
            · rw [if_neg h5] at h
              simp only [List.mem_cons] at h
              rcases h with h | h
              · subst h; exact hvalid
              · exact ih _ _ _ o' h

theorem eaForeachGo_corrupt_invalid {σ : Type} (blk : EaBlock) (blkIdx : Nat)
    (call : EaCall σ) :
    ∀ (fuel o : Nat) (prev : Option Nat) (s : σ) (o' : Nat),
      (eaForeachGo blk blkIdx call fuel o prev s).res = .corruptRec o' →
      eaRecValid blk o' = false := by
  intro fuel
  induction fuel with
  | zero => intro o prev s o' h; simp [eaForeachGo] at h
  | succ fuel ih =>
    intro o prev s o' h
    simp only [eaForeachGo] at h
    by_cases h1 : (blk.recs o).ea_rec_len = 0
    · rw [if_pos h1] at h
      simp at h
      subst h
      simp [eaRecValid, h1]
    · rw [if_neg h1] at h
      by_cases h2 : ¬ (o + (blk.recs o).ea_rec_len ≤ blk.b_avail)
      · rw [if_pos h2] at h
        simp at h
        subst h
        simp only [not_le] at h2
        have hd : decide (o + (blk.recs o).ea_rec_len ≤ blk.b_avail) = false := by
          simp only [decide_eq_false_iff_not, not_le]
          omega
        simp [eaRecValid, hd]
      · rw [if_neg h2] at h
        by_cases h3 : ¬ (eatypeValid (blk.recs o).ea_type = true)
        · rw [if_pos h3] at h
          simp at h
          subst h
          simp only [eaRecValid]
          cases hv : eatypeValid (blk.recs o).ea_type
          · simp
          · exact absurd hv h3
        · rw [if_neg h3] at h
          by_cases h4 : (call blk blkIdx o prev s).1 ≠ 0
          · rw [if_pos h4] at h; simp at h
          · rw [if_neg h4] at h
            by_cases h5 : (blk.recs o).ea_last = true
            · rw [if_pos h5] at h
              by_cases h6 : o + (blk.recs o).ea_rec_len = blk.b_avail
              · rw [if_pos h6] at h; simp at h
              · rw [if_neg h6] at h; simp at h
            · rw [if_neg h5] at h
              exact ih _ _ _ o' h

theorem eaForeachGo_no_fuel {σ : Type} (blk : EaBlock) (blkIdx : Nat)
    (call : EaCall σ) :
    ∀ (fuel o : Nat) (prev : Option Nat) (s : σ), o ≤ blk.b_avail →
      blk.b_avail + 1 - o ≤ fuel →
      (eaForeachGo blk blkIdx call fuel o prev s).res ≠ .noFuel := by
  intro fuel
  induction fuel with
  | zero => intro o prev s ho hf; omega
  | succ fuel ih =>
    intro o prev s ho _
    simp only [eaForeachGo]
    by_cases h1 : (blk.recs o).ea_rec_len = 0
    · rw [if_pos h1]; simp
    · rw [if_neg h1]
      by_cases h2 : ¬ (o + (blk.recs o).ea_rec_len ≤ blk.b_avail)
      · rw [if_pos h2]; simp
      · rw [if_neg h2]
        by_cases h3 : ¬ (eatypeValid (blk.recs o).ea_type = true)
        · rw [if_pos h3]; simp
        · rw [if_neg h3]
          by_cases h4 : (call blk blkIdx o prev s).1 ≠ 0
          · rw [if_pos h4]; simp
          · rw [if_neg h4]
            by_cases h5 : (blk.recs o).ea_last = true
            · rw [if_pos h5]
              by_cases h6 : o + (blk.recs o).ea_rec_len = blk.b_avail
              · rw [if_pos h6]; simp
              · rw [if_neg h6]; simp
            · rw [if_neg h5]
              simp only [not_le] at h2
              exact ih (o + (blk.recs o).ea_rec_len) (some o) _ (by omega) (by omega)

/-- C5, confirmed: every record the traversal invokes the callback on passed
the three validations (non-zero record length, extent ending within the
block, recognized type); when the traversal reports a pre-callback
validation failure at record `o'` (reaching `gfs2_consist_inode` and
`-EIO`), that record really is invalid and the callback was never invoked on
it; and the traversal always halts (the fuel bound is never hit). -/
theorem c5_ea_foreach_i_validates (σ : Type) (blk : EaBlock) (blkIdx : Nat)
    (call : EaCall σ) (s : σ) (o' : Nat) :
    ((ea_foreach_i blk blkIdx call s).visited.all
        (fun o => eaRecValid blk o) = true) ∧
    ((ea_foreach_i blk blkIdx call s).res = .corruptRec o' →
      eaRecValid blk o' = false ∧
      o' ∉ (ea_foreach_i blk blkIdx call s).visited) ∧
    (ea_foreach_i blk blkIdx call s).res ≠ .noFuel := by
  by_cases hm : blk.b_magicOk = true
  · have hva := eaForeachGo_visited_valid blk blkIdx call (blk.b_avail + 1) 0 none s
    have hall : (eaForeachGo blk blkIdx call (blk.b_avail + 1) 0 none s).visited.all
        (fun o => eaRecValid blk o) = true :=
      List.all_eq_true.mpr (fun o ho => hva o ho)
    refine ⟨by simpa [ea_foreach_i, hm] using hall, ?_, ?_⟩
    · intro hc
      simp only [ea_foreach_i, if_pos hm] at hc ⊢
      have hinv := eaForeachGo_corrupt_invalid blk blkIdx call (blk.b_avail + 1)
        0 none s o' hc
      refine ⟨hinv, ?_⟩
      intro hin
      have := hva o' hin
      rw [hinv] at this
      cases this
    · simp only [ea_foreach_i, if_pos hm]
      exact eaForeachGo_no_fuel blk blkIdx call (blk.b_avail + 1) 0 none s
        (by omega) (by omega)
  · refine ⟨by simp [ea_foreach_i, hm], ?_, by simp [ea_foreach_i, hm]⟩
    intro hc
    simp [ea_foreach_i, hm] at hc

/-- A block whose first record is invalid (zero record length), used to
witness `c5_ea_foreach_i_validates`. -/
def badBlock : EaBlock :=
  { b_avail := 24, b_magicOk := true, recs := fun _ => default }

/-- Witness for `c5_ea_foreach_i_validates` on `badBlock`: the traversal
fails at record 0 without having invoked the callback on it, and halts. -/
theorem c5_ea_foreach_i_validates_witness :
    (eaRecValid badBlock 0 = false ∧
      0 ∉ (ea_foreach_i badBlock 0 (fun _ _ _ _ (s : Unit) => (0, s)) ()).visited) ∧
    (ea_foreach_i badBlock 0 (fun _ _ _ _ (s : Unit) => (0, s)) ()).res ≠ .noFuel :=
  ⟨(c5_ea_foreach_i_validates Unit badBlock 0 (fun _ _ _ _ s => (0, s)) () 0).2.1 rfl,
   (c5_ea_foreach_i_validates Unit badBlock 0 (fun _ _ _ _ s => (0, s)) () 0).2.2⟩

/-! ## Claim C3 — gfs2_ea_set_i dispatch -/

/-- C3, amended: for every behavior of the in-place update path (`sp`, `ru`)
— (1) with no attribute store and REPLACE set, Set fails `NotFound`
(`-ENODATA`) changing nothing; (2) with no store and REPLACE clear, Set
initializes a new attribute store; (3) when the named attribute exists and
CREATE is set, Set fails `AlreadyExists` (`-EEXIST`) changing nothing —
provided the inode is not flagged append-only, in which case it fails
`PermissionDenied` (`-EPERM`) first; (4) when a store exists but the
attribute does not, and REPLACE is set, Set fails `NotFound` changing
nothing. -/
theorem c3_set_dispatch (sp : SetPathFn) (ru : RemoveUnstuffedFn) (jb : Nat)
    (ip : EaState) (er : EaRequest) (store : EaStore) (loc : EaLoc) :
    (ip.di_eattr = none → er.er_replace = true →
      gfs2_ea_set_i sp ru jb ip er = (-eNoData, ip, [])) ∧
    (ip.di_eattr = none → er.er_replace = false →
      (gfs2_ea_set_i sp ru jb ip er).2.1.di_eattr.isSome = true) ∧
    (ip.di_eattr = some store → gfs2_ea_find er store = (0, some loc) →
      ip.appendonly = false → er.er_create = true →
      gfs2_ea_set_i sp ru jb ip er = (-eExist, ip, [])) ∧
    (ip.di_eattr = some store → gfs2_ea_find er store = (0, none) →
      er.er_replace = true →
      gfs2_ea_set_i sp ru jb ip er = (-eNoData, ip, [])) := by
  refine ⟨?_, ?_, ?_, ?_⟩
  · intro hdi hrep
    simp [gfs2_ea_set_i, hdi, hrep]
  · intro hdi hrep
    simp [gfs2_ea_set_i, hdi, hrep, ea_init]
  · intro hdi hfind happ hcr
    simp [gfs2_ea_set_i, hdi, hfind, happ, hcr]
  · intro hdi hfind hrep
    simp [gfs2_ea_set_i, hdi, hfind, hrep]

/-- A trivial instantiation of the parameterized update path, used by the
concrete counterexamples and witnesses. -/
def spTriv : SetPathFn := fun _ ip _ => (0, ip, [])

def ruTriv : RemoveUnstuffedFn := fun _ ip _ => ip

/-- A stored attribute: type user (1), name "foo" ([102,111,111]), 10 data
bytes, stuffed, occupying a whole 24-byte payload as the last record. -/
def sampleRec : EaRec :=
  { ea_rec_len := 24, ea_data_len := 10, ea_name_len := 3, ea_type := 1,
    ea_last := true, ea_num_ptrs := 0, ea_name := [102, 111, 111],
    ea_data := [7, 7, 7, 7, 7, 7, 7, 7, 7, 7] }

def sampleBlock : EaBlock :=
  { b_avail := 24, b_magicOk := true,
    recs := fun o => if o = 0 then sampleRec else default }

def sampleStore : EaStore :=
  { indirect := false, indMagicOk := true, blocks := [sampleBlock] }

def ipSome : EaState :=
  { di_eattr := some sampleStore, appendonly := false, immutable := false }

def ipAppendOnly : EaState :=
  { di_eattr := some sampleStore, appendonly := true, immutable := false }

def ipNoAttr : EaState :=
  { di_eattr := none, appendonly := false, immutable := false }

def erFooCreate : EaRequest :=
  { er_type := 1, er_name := [102, 111, 111], er_name_len := 3,
    er_data := some [1, 2, 3], er_data_len := 3,
    er_create := true, er_replace := false }

def erFooReplace : EaRequest :=
  { erFooCreate with er_create := false, er_replace := true }

def erFooPlain : EaRequest :=
  { erFooCreate with er_create := false, er_replace := false }

def erBarReplace : EaRequest :=
  { er_type := 1, er_name := [98, 97, 114], er_name_len := 3,
    er_data := some [1, 2, 3], er_data_len := 3,
    er_create := false, er_replace := true }

/-- C3, counterexample: on an append-only inode whose store holds `user.foo`,
a Set of `user.foo` with CREATE set fails with `-EPERM`
(`PermissionDenied`), not the `-EEXIST` (`AlreadyExists`) the claim states
— the append-only check precedes the CREATE check (eattr.c:1104). -/
theorem c3_counterexample :
    gfs2_ea_find erFooCreate sampleStore = (0, some ⟨0, 0, none⟩) ∧
    erFooCreate.er_create = true ∧
    (gfs2_ea_set_i spTriv ruTriv 24 ipAppendOnly erFooCreate).1 = -ePerm ∧
    (-ePerm : Int) ≠ -eExist := by
  exact ⟨rfl, rfl, rfl, by decide⟩

/-- Witness for `c3_set_dispatch` at concrete instances of its four cases. -/
theorem c3_set_dispatch_witness :
    (gfs2_ea_set_i spTriv ruTriv 24 ipNoAttr erFooReplace = (-eNoData, ipNoAttr, [])) ∧
    ((gfs2_ea_set_i spTriv ruTriv 24 ipNoAttr erFooPlain).2.1.di_eattr.isSome = true) ∧
    (gfs2_ea_set_i spTriv ruTriv 24 ipSome erFooCreate = (-eExist, ipSome, [])) ∧
    (gfs2_ea_set_i spTriv ruTriv 24 ipSome erBarReplace = (-eNoData, ipSome, [])) :=
  ⟨(c3_set_dispatch spTriv ruTriv 24 ipNoAttr erFooReplace sampleStore
      ⟨0, 0, none⟩).1 rfl rfl,
   (c3_set_dispatch spTriv ruTriv 24 ipNoAttr erFooPlain sampleStore
      ⟨0, 0, none⟩).2.1 rfl rfl,
   (c3_set_dispatch spTriv ruTriv 24 ipSome erFooCreate sampleStore
      ⟨0, 0, none⟩).2.2.1 rfl rfl rfl rfl,
   (c3_set_dispatch spTriv ruTriv 24 ipSome erBarReplace sampleStore
      ⟨0, 0, none⟩).2.2.2 rfl rfl rfl⟩

/-! ## Claim C7 — oversized Set fails up front -/

/-- C7, amended: for every Set request with a valid name (1–255 bytes) and a
present (non-null) value buffer whose length exceeds the fixed maximum,
`gfs2_ea_set` fails with `-ERANGE` (`OutOfRange`) in the up-front
`ea_check_size`, before the inode glock is taken, any transaction begins or
any block is allocated (no events), leaving the state unchanged — for every
behavior of the update path. -/
theorem c7_oversized_fails_up_front (sp : SetPathFn) (ru : RemoveUnstuffedFn)
    (jb : Nat) (ip : EaState) (er : EaRequest)
    (h1 : 1 ≤ er.er_name_len) (h2 : er.er_name_len ≤ GFS2_EA_MAX_NAME_LEN)
    (h3 : er.er_data.isSome = true) (h4 : eaMaxDataLen < er.er_data_len) :
    gfs2_ea_set sp ru jb ip er = (-eRange, ip, []) := by
  have hname : ¬ (er.er_name_len = 0 ∨ er.er_name_len > GFS2_EA_MAX_NAME_LEN) := by
    omega
  have hnorm : ¬ (er.er_data = none ∨ er.er_data_len = 0) := by
    rintro (h | h)
    · rw [h] at h3; simp at h3
    · omega
  have hchk : ea_check_size jb er = -eRange := by
    simp only [ea_check_size]
    rw [if_pos h4]
  simp only [gfs2_ea_set, if_neg hname, if_neg hnorm, hchk]
  rw [if_pos (show (-eRange : Int) ≠ 0 by decide)]

def erOversized : EaRequest :=
  { er_type := 1, er_name := [98, 97, 114], er_name_len := 3,
    er_data := some [], er_data_len := 70000,
    er_create := false, er_replace := false }

def erOversizedBadName : EaRequest :=
  { erOversized with er_name := [], er_name_len := 0 }

/-- C7, counterexample: a Set request whose value length (70000) exceeds the
maximum but whose name is empty fails with `-EINVAL` (`InvalidArgument`),
not `-ERANGE` — the name check precedes the size check (eattr.c:1132). -/
theorem c7_counterexample :
    (gfs2_ea_set spTriv ruTriv 100 ipNoAttr erOversizedBadName).1 = -eInval ∧
    eaMaxDataLen < erOversizedBadName.er_data_len ∧
    (-eInval : Int) ≠ -eRange := by
  exact ⟨rfl, by decide, by decide⟩

/-- Witness for `c7_oversized_fails_up_front`: scenario C, a 70000-byte
`user.bar` value. -/
theorem c7_oversized_fails_up_front_witness :
    gfs2_ea_set spTriv ruTriv 100 ipNoAttr erOversized = (-eRange, ipNoAttr, []) :=
  c7_oversized_fails_up_front spTriv ruTriv 100 ipNoAttr erOversized
    (by decide) (by decide) rfl (by decide)

/-! ## Claim C10 — Get with a null/empty buffer sizes, OutOfRange only for
short buffers -/

theorem ea_find_i_fst (er : EaRequest) (blk : EaBlock) (blkIdx o : Nat)
    (prev : Option Nat) (s : Option EaLoc) :
    (ea_find_i er blk blkIdx o prev s).1 = 0 ∨
    (ea_find_i er blk blkIdx o prev s).1 = 1 := by
  simp only [ea_find_i]
  split
  · left; rfl
  · split
    · right; rfl
    · left; rfl

theorem eaForeachGo_stopped_of {σ : Type} (blk : EaBlock) (blkIdx : Nat)
    (call : EaCall σ)
    (hc : ∀ b i o p s, (call b i o p s).1 = 0 ∨ (call b i o p s).1 = 1) :
    ∀ (fuel o : Nat) (prev : Option Nat) (s : σ) (rc : Int),
      (eaForeachGo blk blkIdx call fuel o prev s).res = .stopped rc → rc = 1 := by
  intro fuel
  induction fuel with
  | zero => intro o prev s rc h; simp [eaForeachGo] at h
  | succ fuel ih =>
    intro o prev s rc h
    simp only [eaForeachGo] at h
    by_cases h1 : (blk.recs o).ea_rec_len = 0
    · rw [if_pos h1] at h; simp at h
    · rw [if_neg h1] at h
      by_cases h2 : ¬ (o + (blk.recs o).ea_rec_len ≤ blk.b_avail)
      · rw [if_pos h2] at h; simp at h
      · rw [if_neg h2] at h
        by_cases h3 : ¬ (eatypeValid (blk.recs o).ea_type = true)
        · rw [if_pos h3] at h; simp at h
        · rw [if_neg h3] at h
          by_cases h4 : (call blk blkIdx o prev s).1 ≠ 0
          · rw [if_pos h4] at h
            simp at h
            rcases hc blk blkIdx o prev s with hz | ho
            · exact absurd hz h4
            · rw [← h]; exact ho
          · rw [if_neg h4] at h
            by_cases h5 : (blk.recs o).ea_last = true
            · rw [if_pos h5] at h
              by_cases h6 : o + (blk.recs o).ea_rec_len = blk.b_avail
              · rw [if_pos h6] at h; simp at h
              · rw [if_neg h6] at h; simp at h
            · rw [if_neg h5] at h
              exact ih _ _ _ rc h

theorem ea_foreach_i_int_cases {σ : Type} (blk : EaBlock) (blkIdx : Nat)
    (call : EaCall σ) (s : σ)
    (hc : ∀ b i o p s', (call b i o p s').1 = 0 ∨ (call b i o p s').1 = 1) :
    eaFEtoInt (ea_foreach_i blk blkIdx call s).res = 0 ∨
    eaFEtoInt (ea_foreach_i blk blkIdx call s).res = 1 ∨
    eaFEtoInt (ea_foreach_i blk blkIdx call s).res = -eIOerr := by
  cases hres : (ea_foreach_i blk blkIdx call s).res with
  | ok => left; rfl
  | stopped rc =>
    right; left
    have hrc : rc = 1 := by
      unfold ea_foreach_i at hres
      by_cases hm : blk.b_magicOk = true
      · rw [if_pos hm] at hres
        exact eaForeachGo_stopped_of blk blkIdx call hc _ 0 none s rc hres
      · rw [if_neg hm] at hres; simp at hres
    rw [hrc]
    rfl
  | corruptRec o => right; right; rfl
  | corruptEnd o => right; right; rfl
  | badMagic => right; right; rfl
  | noFuel => right; right; rfl

theorem eaForeachBlocks_fst {σ : Type} (call : EaCall σ)
    (hc : ∀ b i o p s', (call b i o p s').1 = 0 ∨ (call b i o p s').1 = 1) :
    ∀ (bs : List EaBlock) (i : Nat) (s : σ),
      (eaForeachBlocks call bs i s).1 = 0 ∨ (eaForeachBlocks call bs i s).1 = 1 ∨
      (eaForeachBlocks call bs i s).1 = -eIOerr := by
  intro bs
  induction bs with
  | nil => intro i s; left; rfl
  | cons b rest ih =>
    intro i s
    simp only [eaForeachBlocks]
    by_cases he : eaFEtoInt (ea_foreach_i b i call s).res ≠ 0
    · rw [if_pos he]
      rcases ea_foreach_i_int_cases b i call s hc with h | h | h
      · exact absurd h he
      · right; left; exact h
      · right; right; exact h
    · rw [if_neg he]
      exact ih (i + 1) _

theorem ea_foreach_fst {σ : Type} (store : EaStore) (call : EaCall σ) (s : σ)
    (hc : ∀ b i o p s', (call b i o p s').1 = 0 ∨ (call b i o p s').1 = 1) :
    (ea_foreach store call s).1 = 0 ∨ (ea_foreach store call s).1 = 1 ∨
    (ea_foreach store call s).1 = -eIOerr := by
  simp only [ea_foreach]
  by_cases hi : store.indirect = true
  · rw [if_pos hi]
    by_cases hm : store.indMagicOk = true
    · rw [if_pos hm]
      exact eaForeachBlocks_fst call hc store.blocks 0 s
    · rw [if_neg hm]
      right; right; rfl
  · rw [if_neg hi]
    exact ea_foreach_i_int_cases _ 0 call s hc

theorem gfs2_ea_find_fst (er : EaRequest) (store : EaStore) :
    (gfs2_ea_find er store).1 = 0 ∨ (gfs2_ea_find er store).1 = -eIOerr := by
  simp only [gfs2_ea_find]
  rcases ea_foreach_fst store (ea_find_i er) none (ea_find_i_fst er) with h | h | h
  · rw [h, if_neg (show ¬ ((0 : Int) > 0) by decide)]
    left; rfl
  · rw [h, if_pos (show (1 : Int) > 0 by decide)]
    left; rfl
  · rw [h, if_neg (show ¬ ((-eIOerr : Int) > 0) by decide)]
    right; rfl

theorem gfs2_ea_get_i_len0_ne_range (ip : EaState) (er : EaRequest)
    (hlen : er.er_data_len = 0) : (gfs2_ea_get_i ip er).1 ≠ -eRange := by
  cases hdi : ip.di_eattr with
  | none =>
    simp only [gfs2_ea_get_i, hdi]
    decide
  | some store =>
    simp only [gfs2_ea_get_i, hdi]
    by_cases hne : (gfs2_ea_find er store).1 ≠ 0
    · rw [if_pos hne]
      rcases gfs2_ea_find_fst er store with hf | hf
      · exact absurd hf hne
      · show (gfs2_ea_find er store).1 ≠ -eRange
        rw [hf]; decide
    · rw [if_neg hne]
      cases hloc : (gfs2_ea_find er store).2 with
      | none =>
        show (-eNoData : Int) ≠ -eRange
        decide
      | some loc =>
        simp only [hlen]
        intro h
        have h2 : Int.ofNat (blockRecAt store loc).ea_data_len = -34 := h
        simp only [Int.ofNat_eq_natCast] at h2
        omega

/-- C10, confirmed: for an inode with an attribute store and a stored
attribute (located by `gfs2_ea_find` on the normalized request), Get with a
null or zero-length destination buffer succeeds, returning the stored
value's data length without copying any data and without `OutOfRange`; and
`-ERANGE` is produced only when the caller supplied a non-empty buffer
strictly smaller than the stored value's length. -/
theorem c10_get_buffer_sizing (ip : EaState) (er : EaRequest) (store : EaStore)
    (loc : EaLoc)
    (h1 : 1 ≤ er.er_name_len) (h2 : er.er_name_len ≤ GFS2_EA_MAX_NAME_LEN)
    (h3 : ip.di_eattr = some store)
    (h4 : gfs2_ea_find { er with er_data := none, er_data_len := 0 } store =
      (0, some loc))
    (h5 : er.er_data = none ∨ er.er_data_len = 0) :
    gfs2_ea_get ip er = (Int.ofNat (blockRecAt store loc).ea_data_len, false) ∧
    (∀ (ip2 : EaState) (er2 : EaRequest), (gfs2_ea_get ip2 er2).1 = -eRange →
      er2.er_data.isSome = true ∧ 0 < er2.er_data_len ∧
      ∃ store2 loc2, ip2.di_eattr = some store2 ∧
        gfs2_ea_find er2 store2 = (0, some loc2) ∧
        er2.er_data_len < (blockRecAt store2 loc2).ea_data_len) := by
  constructor
  · have hname : ¬ (er.er_name_len = 0 ∨ er.er_name_len > GFS2_EA_MAX_NAME_LEN) := by
      omega
    simp only [gfs2_ea_get, if_neg hname, if_pos h5]
    simp [gfs2_ea_get_i, h3, h4]
  · intro ip2 er2 hres
    by_cases hname2 : er2.er_name_len = 0 ∨ er2.er_name_len > GFS2_EA_MAX_NAME_LEN
    · simp only [gfs2_ea_get, if_pos hname2] at hres
      exact absurd hres (by decide)
    · simp only [gfs2_ea_get, if_neg hname2] at hres
      by_cases hn2 : er2.er_data = none ∨ er2.er_data_len = 0
      · rw [if_pos hn2] at hres
        exact absurd hres (gfs2_ea_get_i_len0_ne_range ip2 _ rfl)
      · rw [if_neg hn2] at hres
        push_neg at hn2
        refine ⟨?_, by omega, ?_⟩
        · cases hd : er2.er_data with
          | none => exact absurd hd hn2.1
          | some _ => rfl
        · cases hdi : ip2.di_eattr with
          | none =>
            simp only [gfs2_ea_get_i, hdi] at hres
            exact absurd hres (by decide)
          | some store2 =>
            simp only [gfs2_ea_get_i, hdi] at hres
            by_cases hne : (gfs2_ea_find er2 store2).1 ≠ 0
            · rw [if_pos hne] at hres
              rcases gfs2_ea_find_fst er2 store2 with hf | hf
              · exact absurd hf hne
              · rw [hf] at hres
                exact absurd hres (by decide)
            · rw [if_neg hne] at hres
              push_neg at hne
              cases hloc2 : (gfs2_ea_find er2 store2).2 with
              | none =>
                rw [hloc2] at hres
                exact absurd hres
                  (show ¬ (((-eNoData : Int), (false : Bool)).1 = -eRange) by decide)
              | some loc2 =>
                rw [hloc2] at hres
                by_cases hgt : er2.er_data_len < (blockRecAt store2 loc2).ea_data_len
                · refine ⟨store2, loc2, by first | exact hdi | rfl, ?_, hgt⟩
                  rw [Prod.ext_iff]
                  exact ⟨hne, hloc2⟩
                · exfalso
                  have hres2 : (if er2.er_data_len ≠ 0 then
                      (if (blockRecAt store2 loc2).ea_data_len > er2.er_data_len
                       then ((-eRange : Int), (false : Bool))
                       else (Int.ofNat (blockRecAt store2 loc2).ea_data_len, true))
                      else (Int.ofNat (blockRecAt store2 loc2).ea_data_len, false)).1 =
                      -eRange := hres
                  rw [if_pos hn2.2, if_neg (by omega :
                    ¬ ((blockRecAt store2 loc2).ea_data_len > er2.er_data_len))] at hres2
                  have h2x : Int.ofNat (blockRecAt store2 loc2).ea_data_len = -34 := hres2
                  simp only [Int.ofNat_eq_natCast] at h2x
                  omega

def erFooNull : EaRequest :=
  { er_type := 1, er_name := [102, 111, 111], er_name_len := 3,
    er_data := none, er_data_len := 0, er_create := false, er_replace := false }

def erFooSmall : EaRequest :=
  { erFooNull with er_data := some [0, 0], er_data_len := 2 }

/-- Witness for `c10_get_buffer_sizing`: a null-buffer Get of `user.foo`
(stored length 10) sizes without copying, and a 2-byte buffer produces the
short-buffer characterization. -/
theorem c10_get_buffer_sizing_witness :
    gfs2_ea_get ipSome erFooNull =
      (Int.ofNat (blockRecAt sampleStore ⟨0, 0, none⟩).ea_data_len, false) ∧
    (erFooSmall.er_data.isSome = true ∧ 0 < erFooSmall.er_data_len ∧
      ∃ store2 loc2, ipSome.di_eattr = some store2 ∧
        gfs2_ea_find erFooSmall store2 = (0, some loc2) ∧
        erFooSmall.er_data_len < (blockRecAt store2 loc2).ea_data_len) :=
  ⟨(c10_get_buffer_sizing ipSome erFooNull sampleStore ⟨0, 0, none⟩
      (by decide) (by decide) rfl rfl (Or.inl rfl)).1,
   (c10_get_buffer_sizing ipSome erFooNull sampleStore ⟨0, 0, none⟩
      (by decide) (by decide) rfl rfl (Or.inl rfl)).2 ipSome erFooSmall rfl⟩
